import Mathlib

/-!
# Host launcher and syscall relay of SGX-LKL (`src/main/sgx_lkl_run.c`)

A shallow embedding of the parts of `sgx_lkl_run.c` that the specification
talks about, followed by theorems about them.

Conventions of the embedding.

* C unsigned integers are natural numbers reduced explicitly modulo `2^32`
  (`unsigned`) or `2^64` (`size_t`, `uint64_t`); `int` and `long` values are
  integers, obtained from a machine word through `to_int32` / `to_int64`.
* Calls that leave the program (`nanosleep`, the `pause` instruction, the host
  `syscall`, `pthread_spin_lock`, `enter_enclave`, `exit`, `fprintf`) are
  recorded as events, in program order, in a trace.
* The non-`DEBUG` build is modelled; `enclave_thread` is the `SGXLKL_HW` build.
-/

namespace SgxLkl

/-! ## Machine words -/

/-- Width modulus of `unsigned` (32 bits). -/
def U32 : Nat := 2 ^ 32

/-- Width modulus of `size_t`, `unsigned long` and `uint64_t` (64 bits). -/
def U64 : Nat := 2 ^ 64

/-- Conversion of a machine word to `int`: the low 32 bits read as two's complement. -/
def to_int32 (x : Nat) : Int :=
  if x % 2 ^ 32 < 2 ^ 31 then ((x % 2 ^ 32 : Nat) : Int) else ((x % 2 ^ 32 : Nat) : Int) - 2 ^ 32

/-- Conversion of a machine word to `long`: the low 64 bits read as two's complement. -/
def to_int64 (x : Nat) : Int :=
  if x % 2 ^ 64 < 2 ^ 63 then ((x % 2 ^ 64 : Nat) : Int) else ((x % 2 ^ 64 : Nat) : Int) - 2 ^ 64

/-! ## Backoff (lines 200-219) -/

/-- What one call of `backoff` does besides returning: the `pause` instruction, or
`nanosleep(&ts, NULL)` with `ts = {tv_sec, tv_nsec}`. -/
inductive BackoffAction where
  | pause
  | nanosleep (tv_sec : Int) (tv_nsec : Int)
  deriving DecidableEq, Repr

/-- The local constant `maxbackoff` of `backoffslow`. -/
def maxbackoff : Nat := 800

/-- The value of the parameter `n` of `backoffslow` after
`n = n - backoff_maxpause; n = n <= maxbackoff ? n : maxbackoff;`.
The subtraction is done in `size_t` and stored back into the `unsigned` `n`. -/
def backoffslow_n (backoff_maxpause n : Nat) : Nat :=
  let n1 := ((n + U64 - backoff_maxpause % U64) % U64) % U32
  (if n1 ≤ maxbackoff then n1 else maxbackoff) % U32

/-- The function `backoffslow(n)`: the sleep it requests and the value it returns.
`ts.tv_nsec = backoff_factor*n` is a `size_t` product stored in a `long`;
`backoff_maxpause + n*2` adds the `unsigned` product `n*2` to a `size_t` and is
returned as `unsigned`. -/
def backoffslow (backoff_maxpause backoff_factor n : Nat) : BackoffAction × Nat :=
  let m := backoffslow_n backoff_maxpause n
  (BackoffAction.nanosleep 0 (to_int64 ((backoff_factor * m) % U64)),
   ((backoff_maxpause + (m * 2) % U32) % U64) % U32)

/-- The function `backoff(n)` for an `unsigned` counter `n`: what it does and what it returns. -/
def backoff (backoff_maxpause backoff_factor n : Nat) : BackoffAction × Nat :=
  if n ≤ backoff_maxpause then (BackoffAction.pause, (n + 1) % U32)
  else backoffslow backoff_maxpause backoff_factor n

/-- Initial value of the global `backoff_maxpause` (line 200), also the default of `SGXLKL_SSPINS`. -/
def default_backoff_maxpause : Nat := 100

/-- Initial value of the global `backoff_factor` (line 201), also the default of `SGXLKL_SSLEEP`. -/
def default_backoff_factor : Nat := 4000

/-- The counter after `k` successive calls of `backoff`, each fed the previous
result, as in `for (s = 0; ...;) {s = backoff(s);}`, together with the actions
of those calls in order. -/
def backoff_iter (backoff_maxpause backoff_factor : Nat) : Nat → Nat → List BackoffAction × Nat
  | 0, n => ([], n)
  | k + 1, n =>
    let r := backoff backoff_maxpause backoff_factor n
    let rest := backoff_iter backoff_maxpause backoff_factor k r.2
    (r.1 :: rest.1, rest.2)

/-! ## Syscall slots and queues (declared in `enclave_config.h` and `mpmc_queue.h`) -/

/-- Conversion of an `int` or `long` value to a 64-bit machine word (sign extension). -/
def of_int64 (v : Int) : Nat := (v % 2 ^ 64).toNat

/-- Modelled from the spec: the type `syscall_t` of `enclave_config.h`, which is not
among the sources; the slot record `{syscallno, arg1..arg6, ret_val, status}` of
machine words with the status values 0, 1 and 2. -/
structure syscall_t where
  syscallno : Nat
  arg1 : Nat
  arg2 : Nat
  arg3 : Nat
  arg4 : Nat
  arg5 : Nat
  arg6 : Nat
  ret_val : Nat
  status : Nat
  deriving DecidableEq, Repr

/-- Modelled from the spec: the queue type of `mpmc_queue.h`, which is not among the
sources; a bounded queue of word-sized tokens, here with its tokens oldest first. -/
structure mpmc_queue where
  capacity : Nat
  tokens : List Nat
  deriving DecidableEq, Repr

/-- Modelled from the spec: `mpmc_enqueue` of `mpmc_queue.h`, which is not among the
sources; non-blocking, it fails (returns false) iff the queue is full. -/
def mpmc_enqueue (q : mpmc_queue) (tok : Nat) : Bool × mpmc_queue :=
  if q.tokens.length < q.capacity then (true, { q with tokens := q.tokens ++ [tok] })
  else (false, q)

/-- Modelled from the spec: `mpmc_dequeue` of `mpmc_queue.h`, which is not among the
sources; non-blocking, it fails iff the queue is empty. -/
def mpmc_dequeue (q : mpmc_queue) : Option Nat × mpmc_queue :=
  match q.tokens with
  | [] => (none, q)
  | t :: ts => (some t, { q with tokens := ts })

/-! ## Host syscall worker (lines 228-300) -/

/-- The syscall number `SYS_write` on x86-64 (`<sys/syscall.h>`). -/
def SYS_write : Nat := 1

/-- The syscall number `SYS_clock_gettime` on x86-64 (`<sys/syscall.h>`). -/
def SYS_clock_gettime : Nat := 228

/-- The descriptor `STDOUT_FILENO` (`<unistd.h>`). -/
def STDOUT_FILENO : Int := 1

/-- The descriptor `STDERR_FILENO` (`<unistd.h>`). -/
def STDERR_FILENO : Int := 2

/-- The two terminal locks `__stdout_print_lock` and `__stderr_print_lock`. -/
inductive PrintLock where
  | stdout
  | stderr
  deriving DecidableEq, Repr

/-- What a host syscall worker does that is visible outside it, in program order. -/
inductive HostEvent where
  | backoff (a : BackoffAction)
  | dequeue (res : Option Nat)
  | spin_lock (l : PrintLock)
  | spin_unlock (l : PrintLock)
  | clock_gettime (clk : Int) (tp : Nat)
  | syscall (n a1 a2 a3 a4 a5 a6 : Nat)
  | enqueue (tok : Nat) (ok : Bool)
  deriving DecidableEq, Repr

/-- The host kernel as the worker sees it: the value the `syscall` instruction leaves
in `rax` for the seven words it is given, and for `clock_gettime(clk, tp)` the `int`
it returns together with the value of `errno` afterwards. The calls are taken to
write nothing into the slot array. -/
structure HostKernel where
  raw_syscall : Nat → Nat → Nat → Nat → Nat → Nat → Nat → Nat
  clock_gettime : Int → Nat → Int × Int

/-- What the other threads do to the two queues between two attempts of this worker:
`syscallq_step k` (`returnq_step k`) is applied to the queue right before the worker's
attempt number `k` of the current spin loop. -/
structure QueueEnv where
  syscallq_step : Nat → mpmc_queue → mpmc_queue
  returnq_step : Nat → mpmc_queue → mpmc_queue

/-- The memory a worker acts on: the slot array `conf->syscallpage`, the queues
`conf->syscallq` and `conf->returnq`, whether this worker holds each terminal lock,
its local `curr_print_lock` (`none` is `NULL`), and the events so far. -/
structure HostState where
  scall : List syscall_t
  syscallq : mpmc_queue
  returnq : mpmc_queue
  stdout_held : Bool
  stderr_held : Bool
  curr_print_lock : Option PrintLock
  trace : List HostEvent
  deriving DecidableEq, Repr

/-- The call `pthread_spin_lock(&lock)` at its return: this worker holds the lock. -/
def pthread_spin_lock (l : PrintLock) (st : HostState) : HostState :=
  match l with
  | PrintLock.stdout => { st with stdout_held := true, trace := st.trace ++ [HostEvent.spin_lock l] }
  | PrintLock.stderr => { st with stderr_held := true, trace := st.trace ++ [HostEvent.spin_lock l] }

/-- The call `pthread_spin_unlock(&lock)`. -/
def pthread_spin_unlock (l : PrintLock) (st : HostState) : HostState :=
  match l with
  | PrintLock.stdout => { st with stdout_held := false, trace := st.trace ++ [HostEvent.spin_unlock l] }
  | PrintLock.stderr => { st with stderr_held := false, trace := st.trace ++ [HostEvent.spin_unlock l] }

/-- Lines 256-266: take the terminal lock for a `write` to stdout or stderr.
Reading `scall[i]` outside the slot array is undefined (`none`). -/
def acquire_print_lock (i : Nat) (st : HostState) : Option HostState :=
  match st.scall.get? i with
  | none => none
  | some sc =>
    if sc.syscallno = SYS_write then
      let fd : Int := to_int32 sc.arg1
      if fd = STDOUT_FILENO then
        some { pthread_spin_lock PrintLock.stdout st with curr_print_lock := some PrintLock.stdout }
      else if fd = STDERR_FILENO then
        some { pthread_spin_lock PrintLock.stderr st with curr_print_lock := some PrintLock.stderr }
      else some st
    else some st

/-- The function `do_syscall(sc)` (lines 228-237): the raw `syscall` instruction on the
seven words of the slot, its result stored in `ret_val`. -/
def do_syscall (host : HostKernel) (sc : syscall_t) : syscall_t × HostEvent :=
  ({ sc with ret_val := host.raw_syscall sc.syscallno sc.arg1 sc.arg2 sc.arg3 sc.arg4 sc.arg5 sc.arg6 },
   HostEvent.syscall sc.syscallno sc.arg1 sc.arg2 sc.arg3 sc.arg4 sc.arg5 sc.arg6)

/-- Lines 268-275: `clock_gettime` through the C library, every other call through
`do_syscall`. -/
def dispatch_syscall (host : HostKernel) (i : Nat) (st : HostState) : Option HostState :=
  match st.scall.get? i with
  | none => none
  | some sc =>
    if sc.syscallno = SYS_clock_gettime then
      let r := host.clock_gettime (to_int32 sc.arg1) sc.arg2
      let sc1 := { sc with ret_val := of_int64 r.1 }
      let sc2 := if sc1.ret_val ≠ 0 then { sc1 with ret_val := of_int64 (- r.2) } else sc1
      some { st with scall := st.scall.set i sc2,
                     trace := st.trace ++ [HostEvent.clock_gettime (to_int32 sc.arg1) sc.arg2] }
    else
      let r := do_syscall host sc
      some { st with scall := st.scall.set i r.1, trace := st.trace ++ [r.2] }

/-- Lines 277-281: release the terminal lock if one was taken. -/
def release_print_lock (st : HostState) : HostState :=
  match st.curr_print_lock with
  | some l => { pthread_spin_unlock l st with curr_print_lock := none }
  | none => st

/-- The loop `for (s = 0; !mpmc_enqueue(&conf->returnq, u.ptr);) {s = backoff(s);}`
(line 295), started at attempt `k` with counter `s`; `none` when the fuel runs out. -/
def enqueue_spin (P F : Nat) (env : QueueEnv) (tok : Nat) :
    Nat → Nat → Nat → mpmc_queue → List HostEvent → Option (mpmc_queue × List HostEvent)
  | 0, _, _, _, _ => none
  | fuel + 1, k, s, q, tr =>
    let r := mpmc_enqueue (env.returnq_step k q) tok
    if r.1 then some (r.2, tr ++ [HostEvent.enqueue tok true])
    else
      let b := backoff P F s
      enqueue_spin P F env tok fuel (k + 1) b.2 r.2
        (tr ++ [HostEvent.enqueue tok false, HostEvent.backoff b.1])

/-- The loop `for (s = 0; !mpmc_dequeue(&conf->syscallq, &u.ptr);) {s = backoff(s);}`
(line 248), started at attempt `k` with counter `s`; `none` when the fuel runs out. -/
def dequeue_spin (P F : Nat) (env : QueueEnv) :
    Nat → Nat → Nat → mpmc_queue → List HostEvent → Option (Nat × mpmc_queue × List HostEvent)
  | 0, _, _, _, _ => none
  | fuel + 1, k, s, q, tr =>
    let r := mpmc_dequeue (env.syscallq_step k q)
    match r.1 with
    | some tok => some (tok, r.2, tr ++ [HostEvent.dequeue (some tok)])
    | none =>
      let b := backoff P F s
      dequeue_spin P F env fuel (k + 1) b.2 r.2
        (tr ++ [HostEvent.dequeue none, HostEvent.backoff b.1])

/-- Lines 291-296: publish the result of slot `i`. A slot with status 1 gets status 2
(the release store) and nothing is queued; otherwise the token `i` is put on the
return queue, retrying with backoff. -/
def publish_result (P F : Nat) (env : QueueEnv) (fuel : Nat) (i : Nat) (st : HostState) :
    Option HostState :=
  match st.scall.get? i with
  | none => none
  | some sc =>
    if sc.status = 1 then
      some { st with scall := st.scall.set i { sc with status := 2 } }
    else
      match enqueue_spin P F env i fuel 0 0 st.returnq st.trace with
      | none => none
      | some r => some { st with returnq := r.1, trace := r.2 }

/-- Lines 256-281 for the dequeued index `i`: lock, perform the call, unlock. -/
def serve_syscall (host : HostKernel) (i : Nat) (st : HostState) : Option HostState :=
  match acquire_print_lock i st with
  | none => none
  | some st1 =>
    match dispatch_syscall host i st1 with
    | none => none
    | some st2 => some (release_print_lock st2)

/-- The body of the `while (1)` loop of `host_syscall_thread` after the index `i` has
been dequeued (lines 249-296). -/
def host_syscall_body (host : HostKernel) (P F : Nat) (env : QueueEnv) (fuel : Nat) (i : Nat)
    (st : HostState) : Option HostState :=
  match serve_syscall host i st with
  | none => none
  | some st3 => publish_result P F env fuel i st3

/-- One iteration of the `while (1)` loop of `host_syscall_thread` (lines 247-297). -/
def host_syscall_iteration (host : HostKernel) (P F : Nat) (env : QueueEnv) (fuel : Nat)
    (st : HostState) : Option HostState :=
  match dequeue_spin P F env fuel 0 0 st.syscallq st.trace with
  | none => none
  | some r => host_syscall_body host P F env fuel r.1 { st with syscallq := r.2.1, trace := r.2.2 }

/-- The tokens this worker put on the return queue, in order, according to a trace. -/
def enqueued_tokens (tr : List HostEvent) : List Nat :=
  tr.filterMap (fun e => match e with
    | HostEvent.enqueue tok true => some tok
    | _ => none)

/-- The return queue as the worker finds it at attempt `k0 + n` of the enqueue loop,
when `q` is the queue left by attempt `k0 - 1` and the attempts `k0, ..., k0 + n - 1`
all failed (a failed attempt leaves the queue as it found it). -/
def returnq_seen_from (env : QueueEnv) : Nat → mpmc_queue → Nat → mpmc_queue
  | k0, q, 0 => env.returnq_step k0 q
  | k0, q, n + 1 => returnq_seen_from env (k0 + 1) (env.returnq_step k0 q) n

/-- The return queue as the worker finds it at attempt `k` of the enqueue loop, when
the loop starts on the queue `q` and all earlier attempts failed. -/
def returnq_seen (env : QueueEnv) (q : mpmc_queue) (k : Nat) : mpmc_queue :=
  returnq_seen_from env 0 q k

/-- An event of the enqueue loop for the token `tok`: an enqueue attempt or a backoff. -/
def is_spin_event (tok : Nat) (e : HostEvent) : Prop :=
  (∃ ok, e = HostEvent.enqueue tok ok) ∨ (∃ a, e = HostEvent.backoff a)

/-- A queue is full. -/
def mpmc_full (q : mpmc_queue) : Prop := ¬ q.tokens.length < q.capacity

instance (q : mpmc_queue) : Decidable (mpmc_full q) := by
  unfold mpmc_full; infer_instance

/-- A sample host kernel for concrete runs: every call returns 0. -/
def sample_host : HostKernel :=
  ⟨fun _ _ _ _ _ _ _ => 0, fun _ _ => (0, 0)⟩

/-- A sample environment for concrete runs: the other threads leave the queues alone. -/
def sample_env : QueueEnv :=
  ⟨fun _ q => q, fun _ q => q⟩

/-- A sample worker state for concrete runs: one idle slot, two empty queues of
capacity 256, no lock held, nothing done yet. -/
def sample_state : HostState :=
  { scall := [⟨0, 0, 0, 0, 0, 0, 0, 0, 0⟩], syscallq := ⟨256, []⟩, returnq := ⟨256, []⟩,
    stdout_held := false, stderr_held := false, curr_print_lock := none, trace := [] }

/-! ## Enclave thread driver (lines 585-627, the `SGXLKL_HW` build) -/

/-- Modelled from the spec: the exit reason `SGXLKL_EXIT_TERMINATE` of `enclave_config.h`,
which is not among the sources. The exit reasons are numbered as the table
`_enclave_exit_reasons` (lines 66-73), indexed by exit reason, lists them. -/
def SGXLKL_EXIT_TERMINATE : Nat := 0

/-- Modelled from the spec: the exit reason `SGXLKL_EXIT_SYSCALL` of `enclave_config.h`. -/
def SGXLKL_EXIT_SYSCALL : Nat := 1

/-- Modelled from the spec: the exit reason `SGXLKL_EXIT_ERROR` of `enclave_config.h`. -/
def SGXLKL_EXIT_ERROR : Nat := 2

/-- Modelled from the spec: the exit reason `SGXLKL_EXIT_SLEEP` of `enclave_config.h`. -/
def SGXLKL_EXIT_SLEEP : Nat := 3

/-- Modelled from the spec: the exit reason `SGXLKL_EXIT_CPUID` of `enclave_config.h`. -/
def SGXLKL_EXIT_CPUID : Nat := 4

/-- Modelled from the spec: the exit reason `SGXLKL_EXIT_DORESUME` of `enclave_config.h`. -/
def SGXLKL_EXIT_DORESUME : Nat := 5

/-- Modelled from the spec: the call id `SGXLKL_ENTER_THREAD_CREATE` of `enclave_config.h`,
which is not among the sources; the three call ids are distinct small integers. -/
def SGXLKL_ENTER_THREAD_CREATE : Int := 0

/-- Modelled from the spec: the call id `SGXLKL_ENTER_SYSCALL_RESUME` of `enclave_config.h`. -/
def SGXLKL_ENTER_SYSCALL_RESUME : Int := 1

/-- Modelled from the spec: the call id `SGXLKL_ENTER_HANDLE_SIGNAL` of `enclave_config.h`. -/
def SGXLKL_ENTER_HANDLE_SIGNAL : Int := 2

/-- The status `EXIT_FAILURE` (`<stdlib.h>`). -/
def EXIT_FAILURE : Int := 1

/-- The record `args_t` (lines 110-114) without its pointer `args` to the
configuration, which the driver only passes on. -/
structure args_t where
  tcs_id : Int
  call_id : Int
  deriving DecidableEq, Repr

/-- What an enclave thread driver does that is visible outside it, in program order. -/
inductive DriverEvent where
  | enter_enclave (tcs_id : Int) (call_id : Int)
  | set_state_exiting
  | exit (status : Int)
  | do_cpuid (reg : Nat)
  | nanosleep (tv_sec : Int) (tv_nsec : Int)
  | print_error (code : Nat)
  | eresume (tcs_id : Int)
  | print_unexpected
  deriving DecidableEq, Repr

/-- The memory a driver acts on: the global `__state_exiting`, its `args`, the
thread-local `my_tcs_id`, the argument of `exit` once the process has been terminated,
and the events so far. -/
structure DriverState where
  state_exiting : Int
  args : args_t
  my_tcs_id : Int
  exited : Option Int
  trace : List DriverEvent
  deriving DecidableEq, Repr

/-- The call `exit(status)`: the process is gone. -/
def driver_exit (status : Int) (st : DriverState) : DriverState :=
  { st with exited := some status, trace := st.trace ++ [DriverEvent.exit status] }

/-- Line 591: the call `enter_enclave(args->tcs_id, args->call_id, args->args, ret)`. -/
def driver_enter (st : DriverState) : DriverState :=
  { st with trace := st.trace ++ [DriverEvent.enter_enclave st.args.tcs_id st.args.call_id] }

/-- The `switch (ret[0])` of `enclave_thread` (lines 595-622) on the two words
`ret[0]`, `ret[1]` the enclave returned. `do_cpuid` writes four words at the address
`ret[1]`, taken to be outside the driver's own data; `eresume` is taken to return, and
its case then falls through into `default`. -/
def enclave_dispatch (ret : Nat × Nat) (st : DriverState) : DriverState :=
  if ret.1 = SGXLKL_EXIT_TERMINATE then
    let st1 := { st with state_exiting := 1, trace := st.trace ++ [DriverEvent.set_state_exiting] }
    let exit_code : Int := to_int32 ret.2
    driver_exit exit_code st1
  else if ret.1 = SGXLKL_EXIT_CPUID then
    { st with args := { st.args with call_id := SGXLKL_ENTER_SYSCALL_RESUME },
              trace := st.trace ++ [DriverEvent.do_cpuid ret.2] }
  else if ret.1 = SGXLKL_EXIT_SLEEP then
    { st with args := { st.args with call_id := SGXLKL_ENTER_SYSCALL_RESUME },
              trace := st.trace ++ [DriverEvent.nanosleep 0 (to_int64 ret.2)] }
  else if ret.1 = SGXLKL_EXIT_ERROR then
    driver_exit EXIT_FAILURE { st with trace := st.trace ++ [DriverEvent.print_error ret.2] }
  else if ret.1 = SGXLKL_EXIT_DORESUME then
    { st with trace := st.trace ++ [DriverEvent.eresume st.my_tcs_id, DriverEvent.print_unexpected] }
  else
    { st with trace := st.trace ++ [DriverEvent.print_unexpected] }

/-- The loop `while (!__state_exiting) { enter_enclave(...); switch ... }` (lines
590-623) against the enclave's successive returns `rets`. When the returns are used
up the driver is inside its next `enter_enclave`, which has not returned. -/
def enclave_thread_loop : List (Nat × Nat) → DriverState → DriverState
  | [], st => if st.state_exiting ≠ 0 then st else driver_enter st
  | ret :: rets, st =>
    if st.state_exiting ≠ 0 then st
    else
      let st2 := enclave_dispatch ret (driver_enter st)
      match st2.exited with
      | some _ => st2
      | none => enclave_thread_loop rets st2

/-- The function `enclave_thread(parm)` started while `__state_exiting` has the value
`exiting` (0 at program start), with `parm` pointing to `args`. -/
def enclave_thread (exiting : Int) (args : args_t) (rets : List (Nat × Nat)) : DriverState :=
  enclave_thread_loop rets
    { state_exiting := exiting, args := args, my_tcs_id := args.tcs_id, exited := none, trace := [] }

/-- The entries into the enclave recorded in a trace, as pairs `(tcs_id, call_id)`. -/
def enclave_entries (tr : List DriverEvent) : List (Int × Int) :=
  tr.filterMap (fun e => match e with
    | DriverEvent.enter_enclave t c => some (t, c)
    | _ => none)

/-! ## CPU affinity parser (lines 521-576) -/

/-- The constant `LONG_MAX` on x86-64. -/
def LONG_MAX : Int := 2 ^ 63 - 1

/-- The label `case '0' ... '9'` on a character given by its code. -/
def is_digit (c : Nat) : Prop := 48 ≤ c ∧ c ≤ 57

instance (c : Nat) : Decidable (is_digit c) := by
  unfold is_digit; infer_instance

/-- The digits `strtol` consumes in base 10 from a string that starts with a digit:
the number read so far and the rest of the string, which starts at the first
character that is not a digit. -/
def strtol_digits : List Nat → Nat → Nat × List Nat
  | [], acc => (acc, [])
  | c :: cs, acc =>
    if is_digit c then strtol_digits cs (acc * 10 + (c - 48)) else (acc, c :: cs)

/-- The call `strtol(curr_ptr, &curr_ptr, 10)` on a string that starts with a digit (the
only way the parser calls it): the value, `LONG_MAX` when the number does not fit a
`long`, and the string after the digits. -/
def strtol (s : List Nat) : Int × List Nat :=
  let r := strtol_digits s 0
  (if (r.1 : Int) ≤ LONG_MAX then (r.1 : Int) else LONG_MAX, r.2)

/-- The two diagnostics of `parse_cpu_affinity_params` on `stderr`: the one of line 552
with the value and the number of cores it prints, and the one of line 572. -/
inductive AffinityDiag where
  | value_too_large (val : Int) (nproc : Nat)
  | invalid_range
  deriving DecidableEq, Repr

/-- What `parse_cpu_affinity_params` leaves behind: the entries
`(*cores)[0 .. *cores_len)`, so that `*cores_len` is the length of `cores`, and the
diagnostic it printed, if any. -/
structure AffinityResult where
  cores : List Int
  diag : Option AffinityDiag
  deriving DecidableEq, Repr

/-- The loop `for (; val > range_start && *cores_len < nproc; val--)` of lines 557-559;
it returns the final `val` and the entries. It runs at most `val - range_start` times,
which is the fuel it is called with. -/
def range_fill (nproc : Nat) (range_start : Int) : Nat → Int → List Int → Int × List Int
  | 0, val, cores => (val, cores)
  | fuel + 1, val, cores =>
    if val > range_start ∧ cores.length < nproc then
      range_fill nproc range_start fuel (val - 1) (cores ++ [val])
    else (val, cores)

/-- The loop `while (*curr_ptr && *cores_len < nproc) switch (*curr_ptr) ...` of lines
546-575 on the string at `curr_ptr` (character codes, the terminating NUL left out; a
code 0 inside ends the string), with the locals `val` and `range_start` and the entries
stored so far. `nproc` is the value of `sysconf(_SC_NPROCESSORS_ONLN)`, a CPU count, so
every stored value fits the `int` entries. Each turn consumes a character; `none` when
the fuel runs out. -/
def parse_loop (nproc : Nat) : Nat → List Nat → Int → Int → List Int → Option AffinityResult
  | 0, _, _, _, _ => none
  | fuel + 1, s, val, range_start, cores =>
    match s with
    | [] => some ⟨cores, none⟩
    | c :: rest =>
      if c = 0 ∨ ¬ cores.length < nproc then some ⟨cores, none⟩
      else if is_digit c then
        let r := strtol (c :: rest)
        if r.1 < 0 ∨ r.1 ≥ (nproc : Int) then
          some ⟨cores, some (AffinityDiag.value_too_large r.1 nproc)⟩
        else if range_start < 0 then
          parse_loop nproc fuel r.2 r.1 range_start (cores ++ [r.1])
        else
          let f := range_fill nproc range_start (r.1 - range_start).toNat r.1 cores
          parse_loop nproc fuel r.2 f.1 (-1) f.2
      else if c = 44 then parse_loop nproc fuel rest val range_start cores
      else if c = 45 then parse_loop nproc fuel rest val val cores
      else some ⟨cores, some AffinityDiag.invalid_range⟩

/-- The value of `strlen(config)`. -/
def c_strlen (s : List Nat) : Nat := (s.takeWhile (fun c => decide (c ≠ 0))).length

/-- The function `parse_cpu_affinity_params(config, &cores, &cores_len)` on a host with
`nproc` online CPUs; `config = none` is the `NULL` pointer. -/
def parse_cpu_affinity_params (nproc : Nat) (config : Option (List Nat)) :
    Option AffinityResult :=
  match config with
  | none => some ⟨[], none⟩
  | some s =>
    if c_strlen s = 0 then some ⟨[], none⟩
    else parse_loop nproc (s.length + 1) s 0 (-1) []

/-- The character codes of a string literal, for concrete runs. -/
def c_str (s : String) : List Nat := s.toList.map Char.toNat

/-! ### The affinity grammar of the specification -/

/-- The number a string of decimal digits denotes. -/
def digits_value (ds : List Nat) : Nat := ds.foldl (fun a c => a * 10 + (c - 48)) 0

/-- A number of the grammar: a non-empty string of decimal digits. -/
def is_number (ds : List Nat) : Prop := ds ≠ [] ∧ ∀ c ∈ ds, is_digit c

/-- An item of the grammar `item := N | N '-' M`, each number given by its digits. -/
inductive AffinityItem where
  | single (n : List Nat)
  | range (n m : List Nat)
  deriving DecidableEq, Repr

/-- The text of an item. -/
def item_text : AffinityItem → List Nat
  | AffinityItem.single n => n
  | AffinityItem.range n m => n ++ [45] ++ m

/-- The text of a list `item (',' item)*`. -/
def items_text : List AffinityItem → List Nat
  | [] => []
  | [it] => item_text it
  | it :: it2 :: its => item_text it ++ [44] ++ items_text (it2 :: its)

/-- An item is made of numbers below `nproc`. -/
def item_below (nproc : Nat) : AffinityItem → Prop
  | AffinityItem.single n => is_number n ∧ digits_value n < nproc
  | AffinityItem.range n m =>
    is_number n ∧ digits_value n < nproc ∧ is_number m ∧ digits_value m < nproc

/-- The integers `val, val - 1, ...`, `k` of them. -/
def count_down (val : Int) : Nat → List Int
  | 0 => []
  | k + 1 => val :: count_down (val - 1) k

/-- The core ids an item stands for, in the order the parser stores them: `N` for `N`;
`N`, then `M, M - 1, ..., N + 1` for `N-M`. -/
def item_cores : AffinityItem → List Int
  | AffinityItem.single n => [(digits_value n : Int)]
  | AffinityItem.range n m =>
    (digits_value n : Int) :: count_down (digits_value m : Int) (digits_value m - digits_value n)

/-- The core ids a list of items stands for, item after item. -/
def items_cores : List AffinityItem → List Int
  | [] => []
  | it :: its => item_cores it ++ items_cores its

/-- The core id `c` belongs to what the item lists: `N` itself, or the inclusive range
`N..M`. -/
def item_lists (it : AffinityItem) (c : Int) : Prop :=
  match it with
  | AffinityItem.single n => c = (digits_value n : Int)
  | AffinityItem.range n m => (digits_value n : Int) ≤ c ∧ c ≤ (digits_value m : Int)

/-- The range of an item is written with `N ≤ M`. -/
def item_ordered : AffinityItem → Prop
  | AffinityItem.single _ => True
  | AffinityItem.range n m => digits_value n ≤ digits_value m

/-! ### Strings that are well formed up to an offending token -/

/-- A token of an affinity string: a number (a maximal run of digits), `','` or `'-'`. -/
inductive AffinityToken where
  | number (ds : List Nat)
  | comma
  | dash
  deriving DecidableEq, Repr

/-- The text of a token. -/
def token_text : AffinityToken → List Nat
  | AffinityToken.number ds => ds
  | AffinityToken.comma => [44]
  | AffinityToken.dash => [45]

/-- The text of a sequence of tokens. -/
def tokens_text : List AffinityToken → List Nat
  | [] => []
  | tok :: toks => token_text tok ++ tokens_text toks

/-- The string does not start with a digit. -/
def no_digit_head (s : List Nat) : Prop :=
  match s with
  | [] => True
  | c :: _ => ¬ is_digit c

/-- The token sequence does not start with a number. -/
def no_number_head (toks : List AffinityToken) : Prop :=
  match toks with
  | AffinityToken.number _ :: _ => False
  | _ => True

/-- A token sequence in which every number is a non-empty run of digits denoting a value
below `nproc` and no two numbers are adjacent: the strings over digits, `','` and `'-'`
that contain no core id `nproc` or above. -/
def tokens_below (nproc : Nat) : List AffinityToken → Prop
  | [] => True
  | AffinityToken.number ds :: toks =>
    is_number ds ∧ digits_value ds < nproc ∧ no_number_head toks ∧ tokens_below nproc toks
  | _ :: toks => tokens_below nproc toks

/-- The token sequence ends with a number. -/
def ends_with_number : List AffinityToken → Prop
  | [] => False
  | [AffinityToken.number _] => True
  | [_] => False
  | _ :: tok :: toks => ends_with_number (tok :: toks)

/-- The string starts with an offending token: a character that is not a digit, `','` or
`'-'`, or a number (a run of digits up to a character that is not a digit, or up to
the end) that denotes a value `nproc` or above. -/
def offending (nproc : Nat) (t : List Nat) : Prop :=
  (∃ c t', t = c :: t' ∧ c ≠ 0 ∧ ¬ is_digit c ∧ c ≠ 44 ∧ c ≠ 45) ∨
  (∃ ds t', t = ds ++ t' ∧ is_number ds ∧ no_digit_head t' ∧ nproc ≤ digits_value ds)

instance (ds : List Nat) : Decidable (is_number ds) := by
  unfold is_number; infer_instance

instance (nproc : Nat) (it : AffinityItem) : Decidable (item_below nproc it) := by
  cases it <;> unfold item_below <;> infer_instance

instance (it : AffinityItem) : Decidable (item_ordered it) := by
  cases it <;> unfold item_ordered <;> infer_instance

instance (it : AffinityItem) (c : Int) : Decidable (item_lists it c) := by
  cases it <;> unfold item_lists <;> infer_instance

instance (s : List Nat) : Decidable (no_digit_head s) := by
  cases s <;> unfold no_digit_head <;> infer_instance

instance (toks : List AffinityToken) : Decidable (no_number_head toks) := by
  unfold no_number_head; split <;> infer_instance

/-! ## Thread pinning in `main` (lines 984-999 and 1035-1043) -/

/-- The CPU that `main` passes to `CPU_SET`, after `CPU_ZERO`, for thread number `i` of
a pool whose parsed affinity list is `cores` (lines 991-995 and 1038-1042): the entry
`cores[i % cores_len]` when `cores_len` is not 0, else `i % nproc`. `none` stands for
a read outside the list or a division by zero. -/
def pinned_cpu (nproc : Nat) (cores : List Int) (i : Nat) : Option Int :=
  if cores.length ≠ 0 then cores.get? (i % cores.length)
  else if nproc = 0 then none
  else some ((i % nproc : Nat) : Int)

/-- The CPU thread number `i` of a pool is pinned to, from the pool's affinity string
(lines 984-985 followed by the loop body of the pool). -/
def pool_pinned_cpu (nproc : Nat) (config : Option (List Nat)) (i : Nat) : Option Int :=
  match parse_cpu_affinity_params nproc config with
  | none => none
  | some r => pinned_cpu nproc r.cores i

/-- The core ids an item stands for when a range `N-M` is read in increasing order, as
the specification words it: `N, N + 1, ..., M`. -/
def item_cores_increasing : AffinityItem → List Int
  | AffinityItem.single n => [(digits_value n : Int)]
  | AffinityItem.range n m =>
    (List.range (digits_value m + 1 - digits_value n)).map
      (fun j => (digits_value n : Int) + (j : Int))

/-- The core ids a list of items stands for, each range read in increasing order. -/
def items_cores_increasing : List AffinityItem → List Int
  | [] => []
  | it :: its => item_cores_increasing it ++ items_cores_increasing its

/-! ## Launcher outcomes -/

/-- How a launcher function that may terminate the process ends: it returns normally
with a value, it calls `exit(status)`, or (for `main`) it returns `value` to the C
runtime; `undefined` stands for a write outside an array. -/
inductive Outcome (α : Type) where
  | ok (a : α)
  | exit (status : Int)
  | ret (value : Int)
  | undefined
  deriving DecidableEq, Repr

/-- The exit code of the process as its parent sees it, the low 8 bits of the argument
of `exit` or of the value `main` returns; `none` while the launcher keeps running. -/
def exit_code {α : Type} : Outcome α → Option Nat
  | Outcome.exit status => some (status % 256).toNat
  | Outcome.ret value => some (value % 256).toNat
  | _ => none

/-- The string a `char*` points to: the characters before the first NUL. -/
def c_string (s : List Nat) : List Nat := s.takeWhile (fun c => decide (c ≠ 0))

/-! ## Disk probe and disk registration (lines 81-82 and 302-344) -/

/-- The macro `EXT4_MAGIC_OFFSET` (line 82). -/
def EXT4_MAGIC_OFFSET : Nat := 1024 + 0x38

/-- The flag `O_RDONLY` (`<fcntl.h>`). -/
def O_RDONLY : Nat := 0

/-- The flag `O_RDWR` (`<fcntl.h>`). -/
def O_RDWR : Nat := 2

/-- The flag `O_NONBLOCK` on Linux (`<fcntl.h>`). -/
def O_NONBLOCK : Nat := 2048

/-- The host calls on disk files: `open(path, flags)`, `fcntl(fd, F_GETFL)`,
`fcntl(fd, F_SETFL, flags)` with their `int` results, and `pread(fd, buf, count,
offset)` with its result and the bytes it delivered into the buffer. -/
structure DiskHost where
  sys_open : List Nat → Nat → Int
  fcntl_getfl : Int → Int
  fcntl_setfl : Int → Nat → Int
  pread : Int → Nat → Nat → Int × List Nat

/-- The host call `pread` on a regular file with the contents `img`: it delivers the
bytes from `offset`, at most `count` of them, fewer at the end of the file. -/
def pread_image (img : List Nat) (count offset : Nat) : Int × List Nat :=
  (((img.drop offset).take count).length, (img.drop offset).take count)

/-- The function `is_disk_encrypted(fd)` (lines 302-310): its `int` result and whether
it called `perror`. The buffer `magic` starts as `{0, 0}` and holds the delivered
bytes after the `pread`. -/
def is_disk_encrypted (host : DiskHost) (fd : Int) : Int × Bool :=
  let r := host.pread fd 2 EXT4_MAGIC_OFFSET
  let magic0 := r.2.getD 0 0
  let magic1 := r.2.getD 1 0
  if r.1 ≠ 2 then (0, true)
  else (if magic0 = 0x53 ∧ magic1 = 0xEF then 0 else 1, false)

/-- Modelled from the spec: the record `struct enclave_disk_config` of
`enclave_config.h`, which is not among the sources; a disk is `{fd, mount_path
(bounded), read_only, encrypted}`, the mount path a buffer of
`SGXLKL_DISK_MNT_MAX_PATH_LEN + 1` characters. -/
structure enclave_disk_config where
  fd : Int
  ro : Int
  mnt : List Nat
  enc : Int
  deriving DecidableEq, Repr

/-- The disk table of the configuration record: the array `encl->disks` as allocated
and the counter `encl->num_disks`. -/
structure disk_table where
  disks : List enclave_disk_config
  num_disks : Nat
  deriving DecidableEq, Repr

/-- The buffer of `n + 1` characters after `strncpy(buf, src, n); buf[n] = '\0';`
(lines 340-341): the first `n` characters of the string `src`, NUL padding up to `n`,
and the final NUL. -/
def strncpy_terminated (src : List Nat) (n : Nat) : List Nat :=
  (c_string src).take n ++ List.replicate (n - (c_string src).length) 0 ++ [0]

/-- The function `register_hd(encl, path, mnt, readonly)` (lines 312-344) on the disk
table; `max_len` is the macro `SGXLKL_DISK_MNT_MAX_PATH_LEN` of `enclave_config.h` and
`path = none` is the `NULL` pointer. -/
def register_hd (max_len : Nat) (host : DiskHost) (encl : disk_table) (path : Option (List Nat))
    (mnt : List Nat) (readonly : Int) : Outcome disk_table :=
  let idx := encl.num_disks
  if c_strlen mnt > max_len then Outcome.exit EXIT_FAILURE
  else
    match path with
    | none => Outcome.ok encl
    | some p =>
      if c_strlen p = 0 then Outcome.ok encl
      else
        let fd := host.sys_open p (if readonly ≠ 0 then O_RDONLY else O_RDWR)
        if fd = -1 then Outcome.exit EXIT_FAILURE
        else
          let flags := host.fcntl_getfl fd
          if flags = -1 then Outcome.exit EXIT_FAILURE
          else
            let res := host.fcntl_setfl fd (flags.toNat ||| O_NONBLOCK)
            if res = -1 then Outcome.exit EXIT_FAILURE
            else if idx < encl.disks.length then
              Outcome.ok
                { disks := encl.disks.set idx
                    { fd := fd, ro := readonly, mnt := strncpy_terminated mnt max_len,
                      enc := (is_disk_encrypted host fd).1 },
                  num_disks := encl.num_disks + 1 }
            else Outcome.undefined

/-- The calls of `register_hd` that `register_hds` (lines 346-377) makes, one after the
other: first the root disk with mount point `"/"`, then one per entry of `SGXLKL_HDS`.
The splitting of `SGXLKL_HDS` at `':'` and `','` is not modelled; `calls` is its
result. -/
def register_hd_calls (max_len : Nat) (host : DiskHost) :
    List (Option (List Nat) × List Nat × Int) → disk_table → Outcome disk_table
  | [], encl => Outcome.ok encl
  | (path, mnt, ro) :: calls, encl =>
    match register_hd max_len host encl path mnt ro with
    | Outcome.ok encl1 => register_hd_calls max_len host calls encl1
    | Outcome.exit status => Outcome.exit status
    | Outcome.ret value => Outcome.ret value
    | Outcome.undefined => Outcome.undefined

/-! ## Reported CPU counts (lines 512-519) -/

/-- The macro `MIN(a,b)` (line 512). -/
def MIN (a b : Int) : Int := if a < b then a else b

/-- The function `set_sysconf_params(conf)` (lines 514-519): the values it stores in
`conf->sysconf_nproc_conf` and `conf->sysconf_nproc_onln`, from the two host values
`sysconf(_SC_NPROCESSORS_CONF)` and `sysconf(_SC_NPROCESSORS_ONLN)` and the 64-bit value
`ethreads` that `getenv_uint64("SGXLKL_ETHREADS", 1, 1024)` returns. -/
def set_sysconf_params (sc_nprocessors_conf sc_nprocessors_onln : Int) (ethreads : Nat) :
    Int × Int :=
  let no_ethreads : Int := to_int64 ethreads
  (MIN sc_nprocessors_conf no_ethreads, MIN sc_nprocessors_onln no_ethreads)

/-! ## Network registration (lines 420-510) -/

/-- The constant `DEFAULT_IPV4_MASK` (line 86). -/
def DEFAULT_IPV4_MASK : Int := 24

/-- The host calls of `register_net`, each with the `int` it returns: opening
`/dev/net/tun`, the three `ioctl`s, `inet_pton` on the address and on the gateway,
`atoi`, and the value of `getenv_bool("SGXLKL_TAP_OFFLOAD", 0)`. -/
structure NetHost where
  tap_offload : Bool
  open_tun : Int
  ioctl_tunsetiff : Int
  ioctl_tunsetvnethdrsz : Int
  ioctl_tunsetoffload : Int
  inet_pton_ip4 : List Nat → Int × Nat
  inet_pton_gw4 : List Nat → Int × Nat
  atoi : List Nat → Int

/-- The network fields of the configuration record that `register_net` writes. -/
structure net_config where
  hostname : List Nat
  net_fd : Int
  net_ip4 : Nat
  net_gw4 : Nat
  net_mask4 : Int
  deriving DecidableEq, Repr

/-- The function `register_net(encl, tapstr, ip4str, mask4str, gw4str, hostname)` (lines
420-510); `none` is a `NULL` string, `hostname_size` is `sizeof(encl->hostname)` and
`default_ip4`, `default_gw4`, `default_hostname` are the strings of lines 84-87. -/
def register_net (host : NetHost) (hostname_size : Nat)
    (default_ip4 default_gw4 default_hostname : List Nat) (encl : net_config)
    (tapstr ip4str mask4str gw4str hostname : Option (List Nat)) : Outcome net_config :=
  let name := match hostname with
    | some h => h
    | none => default_hostname
  let encl1 := { encl with hostname := (c_string name).take (hostname_size - 1) }
  if encl1.net_fd ≠ 0 then Outcome.exit EXIT_FAILURE
  else if tapstr = none ∨ c_strlen (tapstr.getD []) = 0 then Outcome.ok encl1
  else
    let vnet_hdr_sz : Nat := if host.tap_offload then 12 else 0
    let fd := host.open_tun
    if fd = -1 then Outcome.exit EXIT_FAILURE
    else if host.ioctl_tunsetiff = -1 then Outcome.exit EXIT_FAILURE
    else if vnet_hdr_sz ≠ 0 ∧ host.ioctl_tunsetvnethdrsz ≠ 0 then Outcome.exit EXIT_FAILURE
    else if host.ioctl_tunsetoffload ≠ 0 then Outcome.exit EXIT_FAILURE
    else
      let ip4 := host.inet_pton_ip4 (ip4str.getD default_ip4)
      if ip4.1 ≠ 1 then Outcome.exit EXIT_FAILURE
      else
        let gw := gw4str.getD default_gw4
        let gw4 := if c_strlen gw > 0 then host.inet_pton_gw4 gw else (1, 0)
        if c_strlen gw > 0 ∧ gw4.1 ≠ 1 then Outcome.exit EXIT_FAILURE
        else
          let mask4 : Int := match mask4str with
            | none => DEFAULT_IPV4_MASK
            | some m => host.atoi m
          if mask4 < 1 ∨ mask4 > 32 then Outcome.exit EXIT_FAILURE
          else
            Outcome.ok { encl1 with net_fd := fd, net_ip4 := ip4.2, net_gw4 := gw4.2,
                                    net_mask4 := mask4 }

/-! ## Start-up in `main` (lines 751-1071, the simulation build without `DEBUG`) -/

/-- The macro `SIM_NON_PIE_ENCL_MMAP_OFFSET` (line 124). -/
def SIM_NON_PIE_ENCL_MMAP_OFFSET : Nat := 0x200000

/-- The status `EXIT_SUCCESS` (`<stdlib.h>`). -/
def EXIT_SUCCESS : Int := 0

/-- The constant `DEFAULT_IPV4_ADDR` (line 84). -/
def DEFAULT_IPV4_ADDR : List Nat := c_str "10.0.1.1"

/-- The constant `DEFAULT_IPV4_GW` (line 85). -/
def DEFAULT_IPV4_GW : List Nat := c_str "10.0.1.254"

/-- The constant `DEFAULT_HOSTNAME` (line 87). -/
def DEFAULT_HOSTNAME : List Nat := c_str "lkl"

/-- What `main` does that the claims talk about, in program order: the diagnostics it
prints itself, the `mmap` of the enclave heap (its size and whether `MAP_FIXED` is
set), and the start of the two thread pools. -/
inductive MainEvent where
  | print_usage
  | print_version
  | diag_path_unknown
  | diag_path_too_long
  | diag_non_pie_limit (limit : Nat)
  | mmap_heap (size : Nat) (map_fixed : Bool)
  | syscall_threads_started
  | diag_load_elf
  | enclave_threads_started
  | diag_rtprio
  deriving DecidableEq, Repr

/-- Everything outside `main` that decides how the start-up goes: the arguments, the
values read from the environment, the address `&__sgxlklrun_text_segment_start`, and
whether each host call succeeds. `disk_calls` are the calls of `register_hd` that
`register_hds` makes, `shm_requested` says that the three `register_shm` calls are
made and `shm_ok` that none of them fails (each failure of `register_shm` is an
`exit(EXIT_FAILURE)`). -/
structure MainHost where
  argc : Nat
  arg1_version : Bool
  arg1_help : Bool
  readlink_q : Int
  rel_len : Nat
  has_path_sep : Bool
  non_pie : Bool
  heapsize : Nat
  text_start : Nat
  mmap_heap_ok : Bool
  calloc_syscallpage_ok : Bool
  max_len : Nat
  disk_host : DiskHost
  disk_calls : List (Option (List Nat) × List Nat × Int)
  net_host : NetHost
  hostname_size : Nat
  tapstr : Option (List Nat)
  ip4str : Option (List Nat)
  mask4str : Option (List Nat)
  gw4str : Option (List Nat)
  hostname : Option (List Nat)
  shm_requested : Bool
  shm_ok : Bool
  calloc_ts_ok : Bool
  spin_init_ok : Bool
  load_elf_ok : Bool
  rtprio : Bool
  pthread_create_eperm : Bool

/-- A step of `main`: the events it adds and how it ends. -/
abbrev MainStep := List MainEvent × Outcome Unit

/-- One step after another: the second runs only if the first returns normally. -/
def main_then (a b : MainStep) : MainStep :=
  match a.2 with
  | Outcome.ok _ => (a.1 ++ b.1, b.2)
  | _ => a

/-- The result of a helper without the value it returns. -/
def Outcome.forget {α : Type} : Outcome α → Outcome Unit
  | Outcome.ok _ => Outcome.ok ()
  | Outcome.exit status => Outcome.exit status
  | Outcome.ret value => Outcome.ret value
  | Outcome.undefined => Outcome.undefined

/-- Lines 773-781: `--version` and `--help`, and too few arguments. -/
def main_args (h : MainHost) : MainStep :=
  if h.argc ≥ 2 ∧ h.arg1_version = true then ([MainEvent.print_version], Outcome.exit EXIT_SUCCESS)
  else if h.argc ≤ 2 ∨ (h.argc ≥ 2 ∧ h.arg1_help = true) then
    ([MainEvent.print_usage], Outcome.exit EXIT_FAILURE)
  else ([], Outcome.ok ())

/-- Lines 851-867: the path of the library next to the launcher, from
`q = readlink("/proc/self/exe", libsgxlkl, pathlen)` with `pathlen = 1024`; `rel_len`
is `strlen(libsgxlkl_rel)` and the bound `pathlen - strlen(libsgxlkl_rel) - 1` is
computed in `size_t`. -/
def main_path (h : MainHost) : MainStep :=
  if h.readlink_q ≤ 0 then ([MainEvent.diag_path_unknown], Outcome.ret (-1))
  else if h.readlink_q.toNat % U64 > (1024 + U64 - h.rel_len % U64 + U64 - 1) % U64 then
    ([MainEvent.diag_path_too_long], Outcome.ret (-1))
  else if h.has_path_sep = false then ([], Outcome.ret (-1))
  else ([], Outcome.ok ())

/-- Lines 874-886: the check of the heap against the launcher's text segment when
`SGXLKL_NON_PIE` is set, then the `mmap` of the heap. The sum
`(char*) SIM_NON_PIE_ENCL_MMAP_OFFSET + encl.heapsize` is a 64-bit address, and the
limit printed is `&__sgxlklrun_text_segment_start - SIM_NON_PIE_ENCL_MMAP_OFFSET` as a
`size_t`. -/
def main_heap (non_pie : Bool) (text_start heapsize : Nat) (mmap_heap_ok : Bool) : MainStep :=
  if non_pie = true ∧ (SIM_NON_PIE_ENCL_MMAP_OFFSET + heapsize) % U64 > text_start then
    ([MainEvent.diag_non_pie_limit ((text_start + U64 - SIM_NON_PIE_ENCL_MMAP_OFFSET) % U64)],
     Outcome.ret (-1))
  else if mmap_heap_ok = false then ([MainEvent.mmap_heap heapsize non_pie], Outcome.ret (-1))
  else ([MainEvent.mmap_heap heapsize non_pie], Outcome.ok ())

/-- Lines 910-919: the allocation of the slot array. -/
def main_slots (h : MainHost) : MainStep :=
  if h.calloc_syscallpage_ok = false then ([], Outcome.ret (-1)) else ([], Outcome.ok ())

/-- Line 935: `register_hds`, which allocates the array with room for every call of
`register_hd` it makes and sets the counter to 0. -/
def main_disks (h : MainHost) : MainStep :=
  ([], (register_hd_calls h.max_len h.disk_host h.disk_calls
    ⟨List.replicate h.disk_calls.length ⟨0, 0, [], 0⟩, 0⟩).forget)

/-- Line 936: `register_net` on the zero-initialised configuration. -/
def main_net (h : MainHost) : MainStep :=
  ([], (register_net h.net_host h.hostname_size DEFAULT_IPV4_ADDR DEFAULT_IPV4_GW
    DEFAULT_HOSTNAME ⟨[], 0, 0, 0, 0⟩ h.tapstr h.ip4str h.mask4str h.gw4str h.hostname).forget)

/-- Lines 942-954: the three shared-memory files. -/
def main_shm (h : MainHost) : MainStep :=
  if h.shm_requested = true ∧ h.shm_ok = false then ([], Outcome.exit EXIT_FAILURE)
  else ([], Outcome.ok ())

/-- Lines 957-1069: the thread table, the print locks, the host syscall threads, the
load of the library and the enclave threads. -/
def main_threads (h : MainHost) : MainStep :=
  if h.calloc_ts_ok = false then ([], Outcome.ret (-1))
  else if h.spin_init_ok = false then ([], Outcome.ret (-1))
  else if h.load_elf_ok = false then
    ([MainEvent.syscall_threads_started, MainEvent.diag_load_elf], Outcome.ret (-1))
  else if h.rtprio = true ∧ h.pthread_create_eperm = true then
    ([MainEvent.syscall_threads_started, MainEvent.diag_rtprio], Outcome.exit EXIT_FAILURE)
  else ([MainEvent.syscall_threads_started, MainEvent.enclave_threads_started], Outcome.ok ())

/-- The function `main` up to the point where its threads run: the steps above in
program order. The outcome `ok` means that the pools are running and `main` waits
in `pthread_join`. -/
def launcher_main (h : MainHost) : MainStep :=
  main_then (main_args h)
    (main_then (main_path h)
      (main_then (main_heap h.non_pie h.text_start h.heapsize h.mmap_heap_ok)
        (main_then (main_slots h)
          (main_then (main_disks h)
            (main_then (main_net h)
              (main_then (main_shm h) (main_threads h)))))))

/-- A sample host for concrete runs of `main`: every call succeeds, no tap device, one
root disk, the launcher's text at `0x400000`. -/
def sample_main_host : MainHost :=
  { argc := 3, arg1_version := false, arg1_help := false, readlink_q := 20, rel_len := 12,
    has_path_sep := true, non_pie := false, heapsize := 200 * 1024 * 1024,
    text_start := 0x400000, mmap_heap_ok := true, calloc_syscallpage_ok := true,
    max_len := 255,
    disk_host := ⟨fun _ _ => 3, fun _ => 2, fun _ _ => 0, fun _ _ _ => (2, [0x53, 0xEF])⟩,
    disk_calls := [(some (c_str "img.ext4"), c_str "/", 0)],
    net_host := ⟨false, 5, 0, 0, 0, fun _ => (1, 0), fun _ => (1, 0), fun _ => 24⟩,
    hostname_size := 64, tapstr := none, ip4str := none, mask4str := none, gw4str := none,
    hostname := none, shm_requested := false, shm_ok := true, calloc_ts_ok := true,
    spin_init_ok := true, load_elf_ok := true, rtprio := false, pthread_create_eperm := false }

/-! ## Theorems: backoff -/

theorem to_int64_of_lt (x : Nat) (h : x < 2 ^ 63) : to_int64 x = (x : Int) := by
  unfold to_int64
  have h1 : x % 2 ^ 64 = x := Nat.mod_eq_of_lt (by omega)
  rw [h1, if_pos h]

theorem backoffslow_n_eq (P n : Nat) (hn : n < 2 ^ 32) (hP : P < n) :
    backoffslow_n P n = min (n - P) 800 := by
  unfold backoffslow_n U64 U32 maxbackoff
  have h1 : P % 2 ^ 64 = P := Nat.mod_eq_of_lt (by omega)
  have h2 : (n + 2 ^ 64 - P) % 2 ^ 64 = n - P := by
    have : n + 2 ^ 64 - P = (n - P) + 2 ^ 64 := by omega
    rw [this, Nat.add_mod_right]
    exact Nat.mod_eq_of_lt (by omega)
  have h3 : (n - P) % 2 ^ 32 = n - P := Nat.mod_eq_of_lt (by omega)
  simp only [h1, h2, h3]
  split
  · rw [Nat.mod_eq_of_lt (by omega)]; omega
  · rw [Nat.mod_eq_of_lt (by omega)]; omega

/-- C3, as written, fails: with the defaults, `backoff(1000)` returns `1700`, not
`100 + 2·(1000 − 100) = 1900`. -/
theorem backoff_return_not_doubling :
    (backoff default_backoff_maxpause default_backoff_factor 1000).2 = 1700 ∧
    (backoff default_backoff_maxpause default_backoff_factor 1000).2
      ≠ default_backoff_maxpause + 2 * (1000 - default_backoff_maxpause) := by
  decide

theorem backoff_snd_above (P F n : Nat) (hn : n < 2 ^ 32) (hP : P < n) :
    (backoff P F n).2 = (P + 2 * min (n - P) 800) % 2 ^ 32 := by
  have hm := backoffslow_n_eq P n hn hP
  unfold backoff
  rw [if_neg (by omega)]
  unfold backoffslow
  simp only [hm]
  unfold U64 U32
  have h1 : (min (n - P) 800 * 2) % 2 ^ 32 = 2 * min (n - P) 800 := by
    rw [Nat.mod_eq_of_lt (by omega)]; omega
  rw [h1, Nat.mod_eq_of_lt (a := P + 2 * min (n - P) 800) (by omega)]

theorem backoff_fst_above (P F n : Nat) (hn : n < 2 ^ 32) (hP : P < n)
    (hF : F * min (n - P) 800 < 2 ^ 63) :
    (backoff P F n).1 = BackoffAction.nanosleep 0 ((F * min (n - P) 800 : Nat) : Int) := by
  have hm := backoffslow_n_eq P n hn hP
  unfold backoff
  rw [if_neg (by omega)]
  unfold backoffslow
  simp only [hm]
  unfold U64
  rw [Nat.mod_eq_of_lt (a := F * min (n - P) 800) (by omega), to_int64_of_lt _ hF]

/-- C3 (amended): for every `unsigned` counter `n` above the spin threshold `P`,
`backoff(n)` returns `P + 2·min(n − P, 800)` reduced modulo `2^32`; the reduction
is the identity when `P + 1600 < 2^32`, and the result is `P + 2·(n − P)` when
moreover `n ≤ P + 800`. -/
theorem backoff_return_above_threshold (P F n : Nat) (hn : n < 2 ^ 32) (hP : P < n) :
    (backoff P F n).2 = (P + 2 * min (n - P) 800) % 2 ^ 32 ∧
    (P + 1600 < 2 ^ 32 → (backoff P F n).2 = P + 2 * min (n - P) 800) ∧
    (P + 1600 < 2 ^ 32 → n ≤ P + 800 → (backoff P F n).2 = P + 2 * (n - P)) := by
  have hb := backoff_snd_above P F n hn hP
  refine ⟨hb, ?_, ?_⟩
  · intro h
    rw [hb]
    exact Nat.mod_eq_of_lt (by omega)
  · intro h hle
    rw [hb, Nat.mod_eq_of_lt (by omega)]
    omega

theorem backoff_return_above_threshold_witness :
    (backoff 100 4000 1000).2 = (100 + 2 * min (1000 - 100) 800) % 2 ^ 32 ∧
    (100 + 1600 < 2 ^ 32 → (backoff 100 4000 1000).2 = 100 + 2 * min (1000 - 100) 800) ∧
    (100 + 1600 < 2 ^ 32 → 1000 ≤ 100 + 800 → (backoff 100 4000 1000).2 = 100 + 2 * (1000 - 100)) :=
  backoff_return_above_threshold 100 4000 1000 (by decide) (by decide)

/-- C4, as written, fails: with `SGXLKL_SSLEEP = 2^62` and the default threshold,
`backoff(104)` requests a sleep of `0` ns, because the `size_t` product
`backoff_factor * 4 = 2^64` wraps to `0`. -/
theorem backoff_sleep_wraps :
    (backoff default_backoff_maxpause (2 ^ 62) 104).1 = BackoffAction.nanosleep 0 0 ∧
    (backoff default_backoff_maxpause (2 ^ 62) 104).1
      ≠ BackoffAction.nanosleep 0 (((2 ^ 62 * min (104 - default_backoff_maxpause) 800 : Nat) : Int)) := by
  decide

/-- C4 (amended): for every `unsigned` counter `n` above the spin threshold `P`, when
the product `F · min(n − P, 800)` fits the `long` field `tv_nsec` (is below `2^63`),
`backoff(n)` calls `nanosleep` with exactly `{0, F · min(n − P, 800)}`, and that
request never exceeds `F · 800` nanoseconds. -/
theorem backoff_sleep_request (P F n : Nat) (hn : n < 2 ^ 32) (hP : P < n)
    (hF : F * min (n - P) 800 < 2 ^ 63) :
    (backoff P F n).1 = BackoffAction.nanosleep 0 ((F * min (n - P) 800 : Nat) : Int) ∧
    F * min (n - P) 800 ≤ F * 800 :=
  ⟨backoff_fst_above P F n hn hP hF, Nat.mul_le_mul_left F (Nat.min_le_right _ _)⟩

theorem backoff_sleep_request_witness :
    (backoff 100 4000 5000).1 = BackoffAction.nanosleep 0 ((4000 * min (5000 - 100) 800 : Nat) : Int) ∧
    4000 * min (5000 - 100) 800 ≤ 4000 * 800 :=
  backoff_sleep_request 100 4000 5000 (by decide) (by decide) (by decide)

theorem backoff_iter_spin (P F : Nat) (hP : P + 1 < 2 ^ 32) :
    ∀ (k n : Nat), n + k ≤ P + 1 →
      backoff_iter P F k n = (List.replicate k BackoffAction.pause, n + k) := by
  intro k
  induction k with
  | zero => intro n _; simp [backoff_iter]
  | succ k ih =>
    intro n h
    have hb : backoff P F n = (BackoffAction.pause, n + 1) := by
      unfold backoff U32
      rw [if_pos (by omega), Nat.mod_eq_of_lt (by omega)]
    simp only [backoff_iter, hb]
    rw [ih (n + 1) (by omega)]
    simp [List.replicate_succ]
    omega

/-- C5: with the default spin threshold 100 (and any sleep factor), for every
`k ≤ 100`, `k` successive calls of `backoff` starting from counter 0 return the
counter `k`, and each of the `k` calls only pauses (none sleeps). -/
theorem backoff_first_calls_spin (F k : Nat) (hk : k ≤ 100) :
    backoff_iter default_backoff_maxpause F k 0
      = (List.replicate k BackoffAction.pause, k) := by
  have h := backoff_iter_spin default_backoff_maxpause F (by decide) k 0
    (by unfold default_backoff_maxpause; omega)
  simpa using h

theorem backoff_first_calls_spin_witness :
    backoff_iter default_backoff_maxpause 4000 100 0
      = (List.replicate 100 BackoffAction.pause, 100) :=
  backoff_first_calls_spin 4000 100 (by decide)

/-- C6, as written, fails: with the defaults, the 101st call of `backoff` (the one
made on the counter `100` left by the first 100 calls) pauses and returns `101`;
it does not sleep. -/
theorem backoff_call_101_pauses :
    (backoff_iter default_backoff_maxpause default_backoff_factor 100 0).2 = 100 ∧
    backoff default_backoff_maxpause default_backoff_factor
        (backoff_iter default_backoff_maxpause default_backoff_factor 100 0).2
      = (BackoffAction.pause, 101) ∧
    (backoff default_backoff_maxpause default_backoff_factor
        (backoff_iter default_backoff_maxpause default_backoff_factor 100 0).2).1
      ≠ BackoffAction.nanosleep 0 (default_backoff_factor : Nat) := by
  have h := backoff_iter_spin default_backoff_maxpause default_backoff_factor (by decide) 100 0
    (by decide)
  rw [h]
  decide

/-- C6 (amended): with the default spin threshold 100 and a sleep factor `F < 2^63`,
the first 101 calls of `backoff` from counter 0 all pause and leave the counter at
101, and the 102nd call is the first to sleep: it requests exactly `F` nanoseconds
and returns 102. -/
theorem backoff_call_102_sleeps (F : Nat) (hF : F < 2 ^ 63) :
    backoff_iter default_backoff_maxpause F 101 0
      = (List.replicate 101 BackoffAction.pause, 101) ∧
    backoff default_backoff_maxpause F 101
      = (BackoffAction.nanosleep 0 (F : Int), 102) := by
  constructor
  · have h := backoff_iter_spin default_backoff_maxpause F (by decide) 101 0 (by decide)
    simpa using h
  · have e : min (101 - default_backoff_maxpause) 800 = 1 := by decide
    have h1 := backoff_fst_above default_backoff_maxpause F 101 (by decide) (by decide)
      (by rw [e]; omega)
    have h2 := backoff_snd_above default_backoff_maxpause F 101 (by decide) (by decide)
    rw [e] at h1 h2
    have e2 : (default_backoff_maxpause + 2 * 1) % 2 ^ 32 = 102 := by decide
    rw [e2] at h2
    rw [Nat.mul_one] at h1
    exact Prod.ext h1 h2

theorem backoff_call_102_sleeps_witness :
    backoff_iter default_backoff_maxpause 4000 101 0
      = (List.replicate 101 BackoffAction.pause, 101) ∧
    backoff default_backoff_maxpause 4000 101
      = (BackoffAction.nanosleep 0 ((4000 : Nat) : Int), 102) :=
  backoff_call_102_sleeps 4000 (by decide)

/-! ## Theorems: host syscall worker -/

theorem to_int32_eq_one (x : Nat) : to_int32 x = 1 ↔ x % 2 ^ 32 = 1 := by
  unfold to_int32
  split <;> omega

theorem to_int32_eq_two (x : Nat) : to_int32 x = 2 ↔ x % 2 ^ 32 = 2 := by
  unfold to_int32
  split <;> omega

theorem acquire_print_lock_frame (i : Nat) (st : HostState) (sc : syscall_t)
    (hi : st.scall.get? i = some sc) :
    ∃ st1, acquire_print_lock i st = some st1 ∧ st1.scall = st.scall ∧
      st1.returnq = st.returnq ∧ st1.syscallq = st.syscallq ∧
      enqueued_tokens st1.trace = enqueued_tokens st.trace := by
  unfold acquire_print_lock
  rw [hi]
  simp only
  split_ifs <;> simp [pthread_spin_lock, enqueued_tokens]

theorem dispatch_syscall_frame (host : HostKernel) (i : Nat) (st : HostState) (sc : syscall_t)
    (hi : st.scall.get? i = some sc) :
    ∃ st2 r, dispatch_syscall host i st = some st2 ∧
      st2.scall = st.scall.set i { sc with ret_val := r } ∧
      st2.returnq = st.returnq ∧ st2.syscallq = st.syscallq ∧
      enqueued_tokens st2.trace = enqueued_tokens st.trace := by
  unfold dispatch_syscall
  rw [hi]
  simp only
  split_ifs with h1 h2
  · exact ⟨_, _, rfl, rfl, rfl, rfl, by simp [enqueued_tokens]⟩
  · exact ⟨_, _, rfl, rfl, rfl, rfl, by simp [enqueued_tokens]⟩
  · exact ⟨_, _, rfl, rfl, rfl, rfl, by simp [enqueued_tokens, do_syscall]⟩

theorem release_print_lock_frame (st : HostState) :
    (release_print_lock st).scall = st.scall ∧ (release_print_lock st).returnq = st.returnq ∧
    (release_print_lock st).syscallq = st.syscallq ∧
    (release_print_lock st).curr_print_lock = none ∧
    enqueued_tokens (release_print_lock st).trace = enqueued_tokens st.trace := by
  unfold release_print_lock
  cases h : st.curr_print_lock with
  | none => simp [h]
  | some l => cases l <;> simp [pthread_spin_unlock, enqueued_tokens]

theorem serve_syscall_frame (host : HostKernel) (i : Nat) (st : HostState) (sc : syscall_t)
    (hi : st.scall.get? i = some sc) :
    ∃ st3 r, serve_syscall host i st = some st3 ∧
      st3.scall = st.scall.set i { sc with ret_val := r } ∧
      st3.returnq = st.returnq ∧ st3.syscallq = st.syscallq ∧ st3.curr_print_lock = none ∧
      enqueued_tokens st3.trace = enqueued_tokens st.trace := by
  obtain ⟨st1, h1, hs1, hr1, hq1, ht1⟩ := acquire_print_lock_frame i st sc hi
  obtain ⟨st2, r, h2, hs2, hr2, hq2, ht2⟩ :=
    dispatch_syscall_frame host i st1 sc (by rw [hs1]; exact hi)
  have h3 := release_print_lock_frame st2
  refine ⟨release_print_lock st2, r, ?_, ?_, ?_, ?_, h3.2.2.2.1, ?_⟩
  · unfold serve_syscall
    rw [h1]; simp only; rw [h2]
  · rw [h3.1, hs2, hs1]
  · rw [h3.2.1, hr2, hr1]
  · rw [h3.2.2.1, hq2, hq1]
  · rw [h3.2.2.2.2, ht2, ht1]

theorem enqueued_tokens_append (a b : List HostEvent) :
    enqueued_tokens (a ++ b) = enqueued_tokens a ++ enqueued_tokens b := by
  unfold enqueued_tokens
  exact List.filterMap_append _ _ _

theorem enqueue_spin_trace (P F : Nat) (env : QueueEnv) (tok : Nat) :
    ∀ (fuel k s : Nat) (q : mpmc_queue) (tr : List HostEvent) (r : mpmc_queue × List HostEvent),
      enqueue_spin P F env tok fuel k s q tr = some r →
      ∃ rest, r.2 = tr ++ rest ∧ ∀ e ∈ rest, is_spin_event tok e := by
  intro fuel
  induction fuel with
  | zero => intro k s q tr r h; simp [enqueue_spin] at h
  | succ fuel ih =>
    intro k s q tr r h
    unfold enqueue_spin at h
    simp only at h
    split_ifs at h with hok
    · cases h
      refine ⟨[HostEvent.enqueue tok true], rfl, ?_⟩
      intro e he
      simp at he
      exact Or.inl ⟨true, he⟩
    · obtain ⟨rest, h1, h2⟩ := ih _ _ _ _ r h
      refine ⟨[HostEvent.enqueue tok false, HostEvent.backoff (backoff P F s).1] ++ rest, ?_, ?_⟩
      · rw [h1]; simp
      · intro e he
        simp at he
        rcases he with he | he | he
        · exact Or.inl ⟨false, he⟩
        · exact Or.inr ⟨_, he⟩
        · exact h2 e he

theorem enqueue_spin_succeeds (P F : Nat) (env : QueueEnv) (tok : Nat) :
    ∀ (n fuel k0 s : Nat) (q : mpmc_queue) (tr : List HostEvent),
      (∀ j, j < n → mpmc_full (returnq_seen_from env k0 q j)) →
      ¬ mpmc_full (returnq_seen_from env k0 q n) → n < fuel →
      ∃ tr', enqueue_spin P F env tok fuel k0 s q tr
          = some ({ returnq_seen_from env k0 q n with
                      tokens := (returnq_seen_from env k0 q n).tokens ++ [tok] }, tr') ∧
        enqueued_tokens tr' = enqueued_tokens tr ++ [tok] := by
  intro n
  induction n with
  | zero =>
    intro fuel k0 s q tr _ hnf hfuel
    obtain ⟨fuel, rfl⟩ : ∃ f, fuel = f + 1 := ⟨fuel - 1, by omega⟩
    have hlt : (env.returnq_step k0 q).tokens.length < (env.returnq_step k0 q).capacity := by
      simpa [mpmc_full, returnq_seen_from] using hnf
    refine ⟨tr ++ [HostEvent.enqueue tok true], ?_, ?_⟩
    · simp [enqueue_spin, mpmc_enqueue, hlt, returnq_seen_from]
    · rw [enqueued_tokens_append]; rfl
  | succ n ih =>
    intro fuel k0 s q tr hfull hnf hfuel
    obtain ⟨fuel, rfl⟩ : ∃ f, fuel = f + 1 := ⟨fuel - 1, by omega⟩
    have h0 : ¬ (env.returnq_step k0 q).tokens.length < (env.returnq_step k0 q).capacity := by
      simpa [mpmc_full, returnq_seen_from] using hfull 0 (by omega)
    obtain ⟨tr', h1, h2⟩ := ih fuel (k0 + 1) (backoff P F s).2 (env.returnq_step k0 q)
      (tr ++ [HostEvent.enqueue tok false, HostEvent.backoff (backoff P F s).1])
      (fun j hj => by simpa [returnq_seen_from] using hfull (j + 1) (by omega))
      (by simpa [returnq_seen_from] using hnf) (by omega)
    refine ⟨tr', ?_, ?_⟩
    · simp only [enqueue_spin, mpmc_enqueue, if_neg h0, returnq_seen_from]
      simpa using h1
    · rw [h2, enqueued_tokens_append]
      simp [enqueued_tokens]

theorem serve_syscall_trace (host : HostKernel) (i : Nat) (st : HostState) (sc : syscall_t)
    (hi : st.scall.get? i = some sc) (hl : st.curr_print_lock = none)
    (hh1 : st.stdout_held = false) (hh2 : st.stderr_held = false) :
    ∃ st3, serve_syscall host i st = some st3 ∧
      (sc.syscallno = SYS_write ∧ sc.arg1 % 2 ^ 32 = 1 →
        st3.trace = st.trace ++ [HostEvent.spin_lock PrintLock.stdout,
          HostEvent.syscall sc.syscallno sc.arg1 sc.arg2 sc.arg3 sc.arg4 sc.arg5 sc.arg6,
          HostEvent.spin_unlock PrintLock.stdout]) ∧
      (sc.syscallno = SYS_write ∧ sc.arg1 % 2 ^ 32 = 2 →
        st3.trace = st.trace ++ [HostEvent.spin_lock PrintLock.stderr,
          HostEvent.syscall sc.syscallno sc.arg1 sc.arg2 sc.arg3 sc.arg4 sc.arg5 sc.arg6,
          HostEvent.spin_unlock PrintLock.stderr]) ∧
      (¬ (sc.syscallno = SYS_write ∧ (sc.arg1 % 2 ^ 32 = 1 ∨ sc.arg1 % 2 ^ 32 = 2)) →
        st3.trace = st.trace ++ [if sc.syscallno = SYS_clock_gettime
          then HostEvent.clock_gettime (to_int32 sc.arg1) sc.arg2
          else HostEvent.syscall sc.syscallno sc.arg1 sc.arg2 sc.arg3 sc.arg4 sc.arg5 sc.arg6]) ∧
      st3.curr_print_lock = none ∧ st3.stdout_held = false ∧ st3.stderr_held = false := by
  have e1 := to_int32_eq_one sc.arg1
  have e2 := to_int32_eq_two sc.arg1
  have hi' : st.scall[i]? = some sc := by simpa using hi
  have hp : (2 : Nat) ^ 32 = 4294967296 := by norm_num
  rw [hp] at e1 e2
  simp only [hp]
  by_cases hw : sc.syscallno = SYS_write
  · have hc' : ¬ SYS_write = SYS_clock_gettime := by decide
    by_cases h1 : sc.arg1 % 4294967296 = 1
    · have h1' := e1.2 h1
      simp [serve_syscall, acquire_print_lock, dispatch_syscall, release_print_lock,
        pthread_spin_lock, pthread_spin_unlock, do_syscall, hi, hi', hw, hc', h1', h1,
        STDOUT_FILENO, hh2]
    · have h1' : ¬ to_int32 sc.arg1 = 1 := fun h => h1 (e1.1 h)
      by_cases h2 : sc.arg1 % 4294967296 = 2
      · have h2' := e2.2 h2
        simp [serve_syscall, acquire_print_lock, dispatch_syscall, release_print_lock,
          pthread_spin_lock, pthread_spin_unlock, do_syscall, hi, hi', hw, hc', h2', h2,
          STDOUT_FILENO, STDERR_FILENO, hh1]
      · have h2' : ¬ to_int32 sc.arg1 = 2 := fun h => h2 (e2.1 h)
        simp [serve_syscall, acquire_print_lock, dispatch_syscall, release_print_lock,
          do_syscall, hi, hi', hw, hc', h1', h2', h1, h2, STDOUT_FILENO, STDERR_FILENO,
          hl, hh1, hh2]
  · by_cases hc : sc.syscallno = SYS_clock_gettime
    · have hcw : ¬ SYS_clock_gettime = SYS_write := by decide
      simp [serve_syscall, acquire_print_lock, dispatch_syscall, release_print_lock,
        hi, hi', hw, hc, hcw, hl, hh1, hh2]
    · simp [serve_syscall, acquire_print_lock, dispatch_syscall, release_print_lock,
        do_syscall, hi, hi', hw, hc, hl, hh1, hh2]

/-- C1: in one iteration of `host_syscall_thread` for the dequeued index `i` (a slot of
the array), the call is performed and changes only `ret_val` of slot `i`; then, if
slot `i` has status 1, the worker stores status 2 in slot `i` and enqueues nothing;
otherwise, as soon as the return queue is found not full at some attempt `k` (all
earlier attempts having found it full), the loop ends for every fuel above `k` with
exactly the token `i` enqueued once and the status of slot `i` unchanged. In both
cases every slot other than `i` is as before. -/
theorem host_syscall_publish (host : HostKernel) (P F : Nat) (env : QueueEnv) (i : Nat)
    (st : HostState) (sc : syscall_t) (hi : st.scall.get? i = some sc) :
    ∃ st3 r, serve_syscall host i st = some st3 ∧
      st3.scall = st.scall.set i { sc with ret_val := r } ∧ st3.returnq = st.returnq ∧
      (sc.status = 1 → ∀ fuel, ∃ st',
        host_syscall_body host P F env fuel i st = some st' ∧
        st'.scall = st.scall.set i { sc with ret_val := r, status := 2 } ∧
        st'.returnq = st.returnq ∧
        enqueued_tokens st'.trace = enqueued_tokens st.trace ∧
        ∀ j, j ≠ i → st'.scall.get? j = st.scall.get? j) ∧
      (sc.status ≠ 1 → ∀ k, (∀ j, j < k → mpmc_full (returnq_seen env st.returnq j)) →
        ¬ mpmc_full (returnq_seen env st.returnq k) → ∀ fuel, k < fuel → ∃ st',
        host_syscall_body host P F env fuel i st = some st' ∧
        st'.scall = st.scall.set i { sc with ret_val := r } ∧
        st'.returnq = { returnq_seen env st.returnq k with
                          tokens := (returnq_seen env st.returnq k).tokens ++ [i] } ∧
        enqueued_tokens st'.trace = enqueued_tokens st.trace ++ [i] ∧
        ∀ j, j ≠ i → st'.scall.get? j = st.scall.get? j) := by
  obtain ⟨st3, r, hs, hsc, hrq, _, _, htr⟩ := serve_syscall_frame host i st sc hi
  have hlen : i < st.scall.length := by
    rcases Nat.lt_or_ge i st.scall.length with h | h
    · exact h
    · rw [List.get?_eq_none.2 h] at hi; cases hi
  have hi3 : st3.scall.get? i = some { sc with ret_val := r } := by
    rw [hsc]; simp [hlen]
  have hframe : ∀ (x : syscall_t) (j : Nat), j ≠ i →
      (st.scall.set i x).get? j = st.scall.get? j := by
    intro x j hj
    simp [List.getElem?_set, Ne.symm hj]
  refine ⟨st3, r, hs, hsc, hrq, ?_, ?_⟩
  · intro h1 fuel
    refine ⟨{ st3 with scall := st3.scall.set i { sc with ret_val := r, status := 2 } }, ?_, ?_,
      hrq, htr, ?_⟩
    · unfold host_syscall_body
      rw [hs]
      simp only [publish_result, hi3, h1, if_true]
    · simp [hsc]
    · intro j hj
      simp only [hsc, List.set_set]
      exact hframe _ j hj
  · intro h1 k hfull hnf fuel hfuel
    unfold returnq_seen at hfull hnf
    obtain ⟨tr', he, ht⟩ := enqueue_spin_succeeds P F env i k fuel 0 0 st.returnq st3.trace
      hfull hnf hfuel
    refine ⟨{ st3 with returnq := { returnq_seen env st.returnq k with
        tokens := (returnq_seen env st.returnq k).tokens ++ [i] }, trace := tr' }, ?_, hsc, rfl,
      ?_, ?_⟩
    · unfold host_syscall_body
      rw [hs]
      simp only [publish_result, hi3, h1, if_false, hrq, he]
      rfl
    · simp only [ht, htr]
    · intro j hj
      simp only [hsc]
      exact hframe _ j hj

theorem publish_result_frame (P F : Nat) (env : QueueEnv) (fuel i : Nat) (st st' : HostState)
    (h : publish_result P F env fuel i st = some st') :
    st'.curr_print_lock = st.curr_print_lock ∧ st'.stdout_held = st.stdout_held ∧
    st'.stderr_held = st.stderr_held ∧
    ∃ rest, st'.trace = st.trace ++ rest ∧ ∀ e ∈ rest, is_spin_event i e := by
  unfold publish_result at h
  cases hsc : st.scall.get? i with
  | none => rw [hsc] at h; cases h
  | some sc =>
    rw [hsc] at h
    simp only at h
    split_ifs at h with h1
    · cases h
      exact ⟨rfl, rfl, rfl, [], by simp, by simp⟩
    · cases he : enqueue_spin P F env i fuel 0 0 st.returnq st.trace with
      | none => rw [he] at h; cases h
      | some r =>
        rw [he] at h
        cases h
        exact ⟨rfl, rfl, rfl, enqueue_spin_trace P F env i fuel 0 0 st.returnq st.trace r he⟩

/-- C2, as written, fails: for a `write` whose `arg1` is the machine word `2^32 + 1`,
which is not the stdout descriptor `1`, the worker takes the stdout lock, because it
compares `(int) arg1`, the low 32 bits of the word. -/
theorem terminal_lock_taken_for_wide_fd :
    Option.map HostState.trace
      (serve_syscall sample_host 0
        { sample_state with scall := [⟨SYS_write, 2 ^ 32 + 1, 0, 0, 0, 0, 0, 0, 0⟩] })
      = some [HostEvent.spin_lock PrintLock.stdout,
              HostEvent.syscall SYS_write (2 ^ 32 + 1) 0 0 0 0 0,
              HostEvent.spin_unlock PrintLock.stdout] ∧
    ((2 ^ 32 + 1 : Nat) : Int) ≠ STDOUT_FILENO := by
  decide

/-- C2 (amended): in an iteration for the dequeued index `i` that starts with
`curr_print_lock == NULL` and no terminal lock held, the worker takes the stdout
(stderr) lock right before the call and releases it right after, if and only if the
slot's `syscallno` is `SYS_write` and the low 32 bits of `arg1`, the value of
`(int) arg1`, equal 1 (2); in every other case it performs the call with no lock
event. After the call no lock is held and `curr_print_lock` is `NULL`, and whenever the
iteration ends this is still so, the rest of the iteration adding only enqueue
attempts and backoffs to the trace. -/
theorem terminal_lock_discipline (host : HostKernel) (i : Nat) (st : HostState) (sc : syscall_t)
    (hi : st.scall.get? i = some sc) (hl : st.curr_print_lock = none)
    (hh1 : st.stdout_held = false) (hh2 : st.stderr_held = false) :
    ∃ st3, serve_syscall host i st = some st3 ∧
      (sc.syscallno = SYS_write ∧ sc.arg1 % 2 ^ 32 = 1 →
        st3.trace = st.trace ++ [HostEvent.spin_lock PrintLock.stdout,
          HostEvent.syscall sc.syscallno sc.arg1 sc.arg2 sc.arg3 sc.arg4 sc.arg5 sc.arg6,
          HostEvent.spin_unlock PrintLock.stdout]) ∧
      (sc.syscallno = SYS_write ∧ sc.arg1 % 2 ^ 32 = 2 →
        st3.trace = st.trace ++ [HostEvent.spin_lock PrintLock.stderr,
          HostEvent.syscall sc.syscallno sc.arg1 sc.arg2 sc.arg3 sc.arg4 sc.arg5 sc.arg6,
          HostEvent.spin_unlock PrintLock.stderr]) ∧
      (¬ (sc.syscallno = SYS_write ∧ (sc.arg1 % 2 ^ 32 = 1 ∨ sc.arg1 % 2 ^ 32 = 2)) →
        st3.trace = st.trace ++ [if sc.syscallno = SYS_clock_gettime
          then HostEvent.clock_gettime (to_int32 sc.arg1) sc.arg2
          else HostEvent.syscall sc.syscallno sc.arg1 sc.arg2 sc.arg3 sc.arg4 sc.arg5 sc.arg6]) ∧
      st3.curr_print_lock = none ∧ st3.stdout_held = false ∧ st3.stderr_held = false ∧
      ∀ (P F : Nat) (env : QueueEnv) (fuel : Nat) (st' : HostState),
        host_syscall_body host P F env fuel i st = some st' →
        st'.curr_print_lock = none ∧ st'.stdout_held = false ∧ st'.stderr_held = false ∧
        ∃ rest, st'.trace = st3.trace ++ rest ∧ ∀ e ∈ rest, is_spin_event i e := by
  obtain ⟨st3, hs, ha, hb, hc, h1, h2, h3⟩ := serve_syscall_trace host i st sc hi hl hh1 hh2
  refine ⟨st3, hs, ha, hb, hc, h1, h2, h3, ?_⟩
  intro P F env fuel st' hbody
  unfold host_syscall_body at hbody
  rw [hs] at hbody
  obtain ⟨f1, f2, f3, f4⟩ := publish_result_frame P F env fuel i st3 st' hbody
  exact ⟨by rw [f1, h1], by rw [f2, h2], by rw [f3, h3], f4⟩

theorem terminal_lock_discipline_witness :
    ∃ st3, serve_syscall sample_host 0
        { sample_state with scall := [⟨SYS_write, 2, 0, 5, 0, 0, 0, 0, 0⟩] } = some st3 ∧
      st3.trace = [HostEvent.spin_lock PrintLock.stderr,
          HostEvent.syscall SYS_write 2 0 5 0 0 0,
          HostEvent.spin_unlock PrintLock.stderr] ∧
      st3.curr_print_lock = none ∧ st3.stdout_held = false ∧ st3.stderr_held = false := by
  obtain ⟨st3, hs, _, hb, _, h1, h2, h3, _⟩ := terminal_lock_discipline sample_host 0
    { sample_state with scall := [⟨SYS_write, 2, 0, 5, 0, 0, 0, 0, 0⟩] }
    ⟨SYS_write, 2, 0, 5, 0, 0, 0, 0, 0⟩ rfl rfl rfl rfl
  exact ⟨st3, hs, hb ⟨rfl, by decide⟩, h1, h2, h3⟩

theorem host_syscall_publish_witness :
    (∃ st', host_syscall_body sample_host 100 4000 sample_env 1 0
        { sample_state with scall := [⟨39, 0, 0, 0, 0, 0, 0, 0, 0⟩] } = some st' ∧
      st'.returnq.tokens = [0] ∧ enqueued_tokens st'.trace = [0]) ∧
    (∃ st', host_syscall_body sample_host 100 4000 sample_env 0 0
        { sample_state with scall := [⟨39, 0, 0, 0, 0, 0, 0, 0, 1⟩] } = some st' ∧
      st'.returnq.tokens = [] ∧ enqueued_tokens st'.trace = []) := by
  constructor
  · obtain ⟨st3, r, _, _, _, _, h2⟩ := host_syscall_publish sample_host 100 4000 sample_env 0
      { sample_state with scall := [⟨39, 0, 0, 0, 0, 0, 0, 0, 0⟩] }
      ⟨39, 0, 0, 0, 0, 0, 0, 0, 0⟩ rfl
    obtain ⟨st', hb, _, hq, ht, _⟩ := h2 (by decide) 0 (by intro j hj; omega) (by decide) 1
      (by decide)
    exact ⟨st', hb, by rw [hq]; rfl, by rw [ht]; rfl⟩
  · obtain ⟨st3, r, _, _, _, h1, _⟩ := host_syscall_publish sample_host 100 4000 sample_env 0
      { sample_state with scall := [⟨39, 0, 0, 0, 0, 0, 0, 0, 1⟩] }
      ⟨39, 0, 0, 0, 0, 0, 0, 0, 1⟩ rfl
    obtain ⟨st', hb, _, hq, ht, _⟩ := h1 rfl 0
    exact ⟨st', hb, by rw [hq]; rfl, by rw [ht]; rfl⟩

/-! ## Theorems: enclave thread driver -/

theorem to_int32_of_lt (x : Nat) (h : x < 2 ^ 31) : to_int32 x = (x : Int) := by
  unfold to_int32
  have h1 : x % 2 ^ 32 = x := Nat.mod_eq_of_lt (by omega)
  rw [h1, if_pos h]

/-- C7, as written, fails: for `TERMINATE` with the payload `2^32 + 42` the driver
calls `exit(42)`, because the payload is stored in the `int exit_code`; the exit
status is not the payload. -/
theorem terminate_truncates_payload :
    (enclave_thread 0 ⟨0, SGXLKL_ENTER_THREAD_CREATE⟩
        [(SGXLKL_EXIT_TERMINATE, 2 ^ 32 + 42)]).exited = some 42 ∧
    (enclave_thread 0 ⟨0, SGXLKL_ENTER_THREAD_CREATE⟩
        [(SGXLKL_EXIT_TERMINATE, 2 ^ 32 + 42)]).exited ≠ some ((2 ^ 32 + 42 : Nat) : Int) := by
  decide

/-- C7 (amended): for every payload `code` and whatever the enclave would return
afterwards, when `enter_enclave` returns `TERMINATE` with `code`, the driver sets
`__state_exiting` to 1 and then calls `exit((int) code)`, with no further entry
into the enclave; `(int) code` is `code` itself whenever `code < 2^31`, so
`TERMINATE(42)` makes the process exit with 42. -/
theorem terminate_exits_with_code (code : Nat) (args : args_t) (rets : List (Nat × Nat)) :
    enclave_thread 0 args ((SGXLKL_EXIT_TERMINATE, code) :: rets)
      = { state_exiting := 1, args := args, my_tcs_id := args.tcs_id,
          exited := some (to_int32 code),
          trace := [DriverEvent.enter_enclave args.tcs_id args.call_id,
                    DriverEvent.set_state_exiting, DriverEvent.exit (to_int32 code)] } ∧
    (code < 2 ^ 31 → to_int32 code = (code : Int)) ∧
    (enclave_thread 0 args ((SGXLKL_EXIT_TERMINATE, 42) :: rets)).exited = some 42 := by
  refine ⟨?_, to_int32_of_lt code, ?_⟩
  · simp [enclave_thread, enclave_thread_loop, enclave_dispatch, driver_enter, driver_exit]
  · simp [enclave_thread, enclave_thread_loop, enclave_dispatch, driver_enter, driver_exit]
    decide

theorem terminate_exits_with_code_witness :
    (enclave_thread 0 ⟨3, SGXLKL_ENTER_THREAD_CREATE⟩
        [(SGXLKL_EXIT_TERMINATE, 42), (SGXLKL_EXIT_CPUID, 0)]).exited = some 42 ∧
    (42 < 2 ^ 31 ∧ to_int32 42 = ((42 : Nat) : Int)) :=
  ⟨(terminate_exits_with_code 42 ⟨3, SGXLKL_ENTER_THREAD_CREATE⟩ [(SGXLKL_EXIT_CPUID, 0)]).2.2,
   by decide,
   (terminate_exits_with_code 42 ⟨3, SGXLKL_ENTER_THREAD_CREATE⟩ [(SGXLKL_EXIT_CPUID, 0)]).2.1
     (by decide)⟩

theorem enclave_entries_append (a b : List DriverEvent) :
    enclave_entries (a ++ b) = enclave_entries a ++ enclave_entries b := by
  unfold enclave_entries
  exact List.filterMap_append _ _ _

theorem enclave_dispatch_resumable (ret : Nat × Nat) (st : DriverState)
    (h1 : ret.1 ≠ SGXLKL_EXIT_TERMINATE) (h2 : ret.1 ≠ SGXLKL_EXIT_ERROR) :
    (enclave_dispatch ret st).exited = st.exited ∧
    (enclave_dispatch ret st).state_exiting = st.state_exiting ∧
    (enclave_dispatch ret st).args.tcs_id = st.args.tcs_id ∧
    (enclave_dispatch ret st).args.call_id
      = (if ret.1 = SGXLKL_EXIT_CPUID ∨ ret.1 = SGXLKL_EXIT_SLEEP
          then SGXLKL_ENTER_SYSCALL_RESUME else st.args.call_id) ∧
    enclave_entries (enclave_dispatch ret st).trace = enclave_entries st.trace := by
  unfold enclave_dispatch
  rw [if_neg h1]
  by_cases hc : ret.1 = SGXLKL_EXIT_CPUID
  · rw [if_pos hc]
    simp [hc, enclave_entries]
  · rw [if_neg hc]
    by_cases hs : ret.1 = SGXLKL_EXIT_SLEEP
    · rw [if_pos hs]
      simp [hs, enclave_entries]
    · rw [if_neg hs, if_neg h2]
      by_cases hd : ret.1 = SGXLKL_EXIT_DORESUME
      · rw [if_pos hd]
        simp [hc, hs, enclave_entries]
      · rw [if_neg hd]
        simp [hc, hs, enclave_entries]

theorem enclave_thread_loop_entries :
    ∀ (rets : List (Nat × Nat)) (st : DriverState),
      st.state_exiting = 0 → st.exited = none →
      (∀ r ∈ rets, r.1 ≠ SGXLKL_EXIT_TERMINATE ∧ r.1 ≠ SGXLKL_EXIT_ERROR) →
      (enclave_thread_loop rets st).exited = none ∧
      (enclave_thread_loop rets st).state_exiting = 0 ∧
      ∃ es, enclave_entries (enclave_thread_loop rets st).trace
              = enclave_entries st.trace ++ es ∧
        es.length = rets.length + 1 ∧
        ∀ k, k ≤ rets.length →
          es.get? k = some (st.args.tcs_id,
            if (rets.take k).any
                (fun r => decide (r.1 = SGXLKL_EXIT_CPUID ∨ r.1 = SGXLKL_EXIT_SLEEP))
            then SGXLKL_ENTER_SYSCALL_RESUME else st.args.call_id) := by
  intro rets
  induction rets with
  | nil =>
    intro st he hx _
    refine ⟨by simp [enclave_thread_loop, he, driver_enter, hx],
      by simp [enclave_thread_loop, he, driver_enter],
      [(st.args.tcs_id, st.args.call_id)], ?_, rfl, ?_⟩
    · simp [enclave_thread_loop, he, driver_enter, enclave_entries]
    · intro k hk
      have : k = 0 := by simpa using hk
      subst this
      simp
  | cons r rs ih =>
    intro st he hx hr
    have hr1 := hr r (List.mem_cons_self _ _)
    obtain ⟨d1, d2, d3, d4, d5⟩ := enclave_dispatch_resumable r (driver_enter st) hr1.1 hr1.2
    have hx2 : (enclave_dispatch r (driver_enter st)).exited = none := by
      rw [d1]; simpa [driver_enter] using hx
    have he2 : (enclave_dispatch r (driver_enter st)).state_exiting = 0 := by
      rw [d2]; simpa [driver_enter] using he
    obtain ⟨i1, i2, es, i3, i4, i5⟩ := ih (enclave_dispatch r (driver_enter st)) he2 hx2
      (fun r' h' => hr r' (List.mem_cons_of_mem _ h'))
    have hloop : enclave_thread_loop (r :: rs) st
        = enclave_thread_loop rs (enclave_dispatch r (driver_enter st)) := by
      simp [enclave_thread_loop, he, hx2]
    rw [hloop]
    refine ⟨i1, i2, (st.args.tcs_id, st.args.call_id) :: es, ?_, by simp [i4], ?_⟩
    · rw [i3, d5]
      simp [driver_enter, enclave_entries]
    · intro k hk
      cases k with
      | zero => simp
      | succ k =>
        have hk' : k ≤ rs.length := by simpa using hk
        have := i5 k hk'
        rw [d3, d4] at this
        simp only [List.get?_cons_succ, this, List.take_succ_cons, List.any_cons, driver_enter]
        by_cases hc : r.1 = SGXLKL_EXIT_CPUID ∨ r.1 = SGXLKL_EXIT_SLEEP
        · have hd := decide_eq_true hc
          simp only [if_pos hc, hd, Bool.true_or, if_true, ite_self]
        · have hd := decide_eq_false hc
          simp only [if_neg hc, hd, Bool.false_or]

/-- C8: for every sequence of exits returned to `enclave_thread` (started with
`__state_exiting == 0`) that contains neither `TERMINATE` nor `ERROR`, the driver
enters the enclave once more after each exit, always on its `tcs_id`, and the call id
of its entry number `k` (from 0) is `RESUME` if one of the first `k` exits was `CPUID`
or `SLEEP` and the initial call id otherwise; so each exit of reason `CPUID` or
`SLEEP` makes the next call id `RESUME` and any other exit leaves it as it was. The
process is not terminated and `__state_exiting` stays 0. -/
theorem driver_reenters_with_call_id (args : args_t) (rets : List (Nat × Nat))
    (h : ∀ r ∈ rets, r.1 ≠ SGXLKL_EXIT_TERMINATE ∧ r.1 ≠ SGXLKL_EXIT_ERROR) :
    (enclave_thread 0 args rets).exited = none ∧
    (enclave_thread 0 args rets).state_exiting = 0 ∧
    (enclave_entries (enclave_thread 0 args rets).trace).length = rets.length + 1 ∧
    (∀ k, k ≤ rets.length →
      (enclave_entries (enclave_thread 0 args rets).trace).get? k
        = some (args.tcs_id,
            if (rets.take k).any
                (fun r => decide (r.1 = SGXLKL_EXIT_CPUID ∨ r.1 = SGXLKL_EXIT_SLEEP))
            then SGXLKL_ENTER_SYSCALL_RESUME else args.call_id)) ∧
    (∀ k t c, k < rets.length →
      (enclave_entries (enclave_thread 0 args rets).trace).get? k = some (t, c) →
      (enclave_entries (enclave_thread 0 args rets).trace).get? (k + 1)
        = some (t, if (rets.get? k).any
                (fun r => decide (r.1 = SGXLKL_EXIT_CPUID ∨ r.1 = SGXLKL_EXIT_SLEEP))
            then SGXLKL_ENTER_SYSCALL_RESUME else c)) := by
  obtain ⟨h1, h2, es, h3, h4, h5⟩ := enclave_thread_loop_entries rets
    { state_exiting := 0, args := args, my_tcs_id := args.tcs_id, exited := none, trace := [] }
    rfl rfl h
  have h3' : enclave_entries (enclave_thread 0 args rets).trace = es := by
    unfold enclave_thread
    rw [h3]
    simp [enclave_entries]
  refine ⟨h1, h2, by rw [h3', h4], ?_, ?_⟩
  · intro k hk
    rw [h3']
    exact h5 k hk
  · intro k t c hk hget
    rw [h3'] at hget ⊢
    have e1 := h5 k (by omega)
    have e2 := h5 (k + 1) (by omega)
    rw [e1] at hget
    simp only [Option.some.injEq, Prod.mk.injEq] at hget
    obtain ⟨ht, hc⟩ := hget
    rw [e2, ← ht, ← hc]
    have hk2 : rets.get? k = some (rets.get ⟨k, hk⟩) := List.get?_eq_get hk
    have htake : rets.take (k + 1) = rets.take k ++ [rets.get ⟨k, hk⟩] := by
      simp [List.take_succ, hk2]
    rw [htake, hk2]
    simp only [List.any_append, List.any_cons, List.any_nil, Bool.or_false, Option.any_some]
    by_cases hb : (rets.get ⟨k, hk⟩).1 = SGXLKL_EXIT_CPUID ∨ (rets.get ⟨k, hk⟩).1 = SGXLKL_EXIT_SLEEP
    · have hd := decide_eq_true hb
      simp only [if_pos hb, hd, Bool.or_true, if_true]
    · have hd := decide_eq_false hb
      simp only [hd, Bool.or_false, Bool.false_eq_true, if_false]

theorem driver_reenters_with_call_id_witness :
    (enclave_thread 0 ⟨2, SGXLKL_ENTER_THREAD_CREATE⟩
        [(SGXLKL_EXIT_DORESUME, 0), (SGXLKL_EXIT_SLEEP, 5), (77, 0)]).exited = none ∧
    (enclave_entries (enclave_thread 0 ⟨2, SGXLKL_ENTER_THREAD_CREATE⟩
        [(SGXLKL_EXIT_DORESUME, 0), (SGXLKL_EXIT_SLEEP, 5), (77, 0)]).trace).length = 3 + 1 ∧
    (enclave_entries (enclave_thread 0 ⟨2, SGXLKL_ENTER_THREAD_CREATE⟩
        [(SGXLKL_EXIT_DORESUME, 0), (SGXLKL_EXIT_SLEEP, 5), (77, 0)]).trace).get? 2
      = some (2, SGXLKL_ENTER_SYSCALL_RESUME) := by
  have h := driver_reenters_with_call_id ⟨2, SGXLKL_ENTER_THREAD_CREATE⟩
    [(SGXLKL_EXIT_DORESUME, 0), (SGXLKL_EXIT_SLEEP, 5), (77, 0)] (by decide)
  exact ⟨h.1, h.2.2.1, h.2.2.2.1 2 (by decide)⟩

/-! ## Theorems: CPU affinity parser -/

theorem strtol_digits_run (ds : List Nat) (hds : ∀ c ∈ ds, is_digit c) (rest : List Nat)
    (hrest : no_digit_head rest) :
    ∀ acc, strtol_digits (ds ++ rest) acc
      = (ds.foldl (fun a c => a * 10 + (c - 48)) acc, rest) := by
  induction ds with
  | nil =>
    intro acc
    cases rest with
    | nil => rfl
    | cons c r =>
      have : ¬ is_digit c := hrest
      simp [strtol_digits, this]
  | cons d ds ih =>
    intro acc
    have hd : is_digit d := hds d (List.mem_cons_self _ _)
    have := ih (fun c hc => hds c (List.mem_cons_of_mem _ hc)) (acc * 10 + (d - 48))
    simp [strtol_digits, hd, this]

theorem strtol_run (ds : List Nat) (hds : ∀ c ∈ ds, is_digit c) (rest : List Nat)
    (hrest : no_digit_head rest) :
    strtol (ds ++ rest)
      = (if (digits_value ds : Int) ≤ LONG_MAX then (digits_value ds : Int) else LONG_MAX, rest) := by
  unfold strtol
  rw [strtol_digits_run ds hds rest hrest 0]
  rfl

theorem range_fill_spec (nproc : Nat) (range_start : Int) :
    ∀ (k : Nat) (val : Int) (cores : List Int), (val - range_start).toNat = k →
      cores.length ≤ nproc →
      (range_fill nproc range_start k val cores).2 = (cores ++ count_down val k).take nproc := by
  intro k
  induction k with
  | zero =>
    intro val cores _ hlen
    simp [range_fill, count_down, List.take_of_length_le hlen]
  | succ k ih =>
    intro val cores hk hlen
    have hv : val > range_start := by omega
    by_cases hc : cores.length < nproc
    · have h1 : val > range_start ∧ cores.length < nproc := ⟨hv, hc⟩
      simp only [range_fill, if_pos h1]
      rw [ih (val - 1) (cores ++ [val]) (by omega) (by simp; omega)]
      simp [count_down]
    · have h1 : ¬ (val > range_start ∧ cores.length < nproc) := fun h => hc h.2
      simp only [range_fill, if_neg h1]
      have : cores.length = nproc := by omega
      rw [List.take_append_of_le_length (by omega), List.take_of_length_le (by omega)]

theorem parse_loop_full (nproc fuel : Nat) (s : List Nat) (val rs : Int) (cores : List Int)
    (h : ¬ cores.length < nproc) :
    parse_loop nproc (fuel + 1) s val rs cores = some ⟨cores, none⟩ := by
  cases s with
  | nil => simp [parse_loop]
  | cons c rest => simp [parse_loop, h]

theorem parse_loop_number (nproc fuel : Nat) (hn : (nproc : Int) ≤ LONG_MAX) (ds tail : List Nat)
    (hds : is_number ds) (htail : no_digit_head tail) (val rs : Int) (cores : List Int)
    (hc : cores.length < nproc) :
    parse_loop nproc (fuel + 1) (ds ++ tail) val rs cores
      = if nproc ≤ digits_value ds then
          some ⟨cores, some (AffinityDiag.value_too_large (strtol (ds ++ tail)).1 nproc)⟩
        else if rs < 0 then
          parse_loop nproc fuel tail (digits_value ds) rs (cores ++ [(digits_value ds : Int)])
        else
          parse_loop nproc fuel tail
            (range_fill nproc rs ((digits_value ds : Int) - rs).toNat (digits_value ds) cores).1 (-1)
            (range_fill nproc rs ((digits_value ds : Int) - rs).toNat (digits_value ds) cores).2 := by
  obtain ⟨hne, hall⟩ := hds
  have hst := strtol_run ds hall tail htail
  cases ds with
  | nil => exact absurd rfl hne
  | cons d ds' =>
    have hd : is_digit d := hall d (List.mem_cons_self _ _)
    have hd0 : ¬ (d = 0 ∨ ¬ cores.length < nproc) := by
      unfold is_digit at hd
      intro h
      rcases h with h | h
      · omega
      · exact h hc
    rw [List.cons_append] at hst ⊢
    simp only [parse_loop, if_neg hd0, if_pos hd]
    rw [hst]
    simp only
    by_cases hbig : nproc ≤ digits_value (d :: ds')
    · rw [if_pos hbig]
      have : (if (digits_value (d :: ds') : Int) ≤ LONG_MAX then (digits_value (d :: ds') : Int)
          else LONG_MAX) < 0 ∨ (if (digits_value (d :: ds') : Int) ≤ LONG_MAX
          then (digits_value (d :: ds') : Int) else LONG_MAX) ≥ (nproc : Int) := by
        right
        split
        · omega
        · omega
      rw [if_pos this]
    · rw [if_neg hbig]
      have hle : (digits_value (d :: ds') : Int) ≤ LONG_MAX := by omega
      rw [if_pos hle]
      have : ¬ ((digits_value (d :: ds') : Int) < 0 ∨ (digits_value (d :: ds') : Int) ≥ (nproc : Int)) := by
        omega
      rw [if_neg this]

theorem take_full_append (nproc : Nat) (a b : List Int) (h : a.length = nproc) :
    (a ++ b).take nproc = a := by
  rw [List.take_append_of_le_length (by omega), List.take_of_length_le (by omega)]

theorem number_length_pos (ds : List Nat) (h : is_number ds) : 0 < ds.length := by
  cases ds with
  | nil => exact absurd rfl h.1
  | cons d ds => simp

theorem parse_loop_item (nproc : Nat) (hn : (nproc : Int) ≤ LONG_MAX) (it : AffinityItem)
    (hit : item_below nproc it) (tail : List Nat) (htail : no_digit_head tail)
    (fuel : Nat) (val : Int) (cores : List Int)
    (hf : (item_text it ++ tail).length < fuel) (hlen : cores.length ≤ nproc) :
    ∃ fuel' val', tail.length < fuel' ∧
      parse_loop nproc fuel (item_text it ++ tail) val (-1) cores
        = parse_loop nproc fuel' tail val' (-1) ((cores ++ item_cores it).take nproc) := by
  obtain ⟨f, rfl⟩ : ∃ f, fuel = f + 1 := ⟨fuel - 1, by omega⟩
  by_cases hc : cores.length < nproc
  swap
  · refine ⟨tail.length + 1, 0, by omega, ?_⟩
    rw [take_full_append nproc cores _ (by omega), parse_loop_full nproc f _ _ _ _ hc,
      parse_loop_full nproc _ _ _ _ _ hc]
  cases it with
  | single n =>
    obtain ⟨hnum, hv⟩ := hit
    have hpos := number_length_pos n hnum
    refine ⟨f, (digits_value n : Int), ?_, ?_⟩
    · simp [item_text] at hf; omega
    · simp only [item_text, item_cores]
      rw [parse_loop_number nproc f hn n tail hnum htail val (-1) cores hc,
        if_neg (by omega), if_pos (by omega)]
      rw [List.take_of_length_le (by simp; omega)]
  | range n m =>
    obtain ⟨hnum, hv, hmum, hw⟩ := hit
    have hpos := number_length_pos n hnum
    have hposm := number_length_pos m hmum
    have htext : item_text (AffinityItem.range n m) ++ tail = n ++ (45 :: (m ++ tail)) := by
      simp [item_text]
    rw [htext] at hf ⊢
    have hl : (n ++ (45 :: (m ++ tail))).length = n.length + 1 + m.length + tail.length := by
      simp; omega
    rw [hl] at hf
    have h45 : no_digit_head (45 :: (m ++ tail)) := by
      show ¬ is_digit 45
      unfold is_digit; omega
    rw [parse_loop_number nproc f hn n _ hnum h45 val (-1) cores hc,
      if_neg (by omega), if_pos (by omega)]
    obtain ⟨g, rfl⟩ : ∃ g, f = g + 1 := ⟨f - 1, by omega⟩
    by_cases hc2 : (cores ++ [(digits_value n : Int)]).length < nproc
    swap
    · refine ⟨tail.length + 1, 0, by omega, ?_⟩
      have e : cores ++ item_cores (AffinityItem.range n m)
          = (cores ++ [(digits_value n : Int)])
            ++ count_down (digits_value m : Int) (digits_value m - digits_value n) := by
        simp [item_cores]
      rw [e, take_full_append nproc _ _ (by simp at hc2 ⊢; omega),
        parse_loop_full nproc g _ _ _ _ hc2, parse_loop_full nproc _ _ _ _ _ hc2]
    · obtain ⟨h, rfl⟩ : ∃ h, g = h + 1 := ⟨g - 1, by omega⟩
      have hstep : parse_loop nproc (h + 1 + 1) (45 :: (m ++ tail)) (digits_value n) (-1)
            (cores ++ [(digits_value n : Int)])
          = parse_loop nproc (h + 1) (m ++ tail) (digits_value n) (digits_value n)
            (cores ++ [(digits_value n : Int)]) := by
        have h0 : ¬ ((45 : Nat) = 0 ∨ ¬ (cores ++ [(digits_value n : Int)]).length < nproc) := by
          intro hh
          rcases hh with hh | hh
          · omega
          · exact hh hc2
        have hnd : ¬ is_digit 45 := by unfold is_digit; omega
        simp only [parse_loop, if_neg h0, if_neg hnd]
        simp
      rw [hstep, parse_loop_number nproc h hn m tail hmum htail _ _ _ hc2,
        if_neg (by omega), if_neg (by omega)]
      refine ⟨h, (range_fill nproc (digits_value n)
        ((digits_value m : Int) - (digits_value n : Int)).toNat (digits_value m)
        (cores ++ [(digits_value n : Int)])).1, by omega, ?_⟩
      have hk : ((digits_value m : Int) - (digits_value n : Int)).toNat
          = digits_value m - digits_value n := by omega
      rw [range_fill_spec nproc _ _ _ _ rfl (by omega), hk]
      simp [item_cores]

theorem parse_loop_items (nproc : Nat) (hn : (nproc : Int) ≤ LONG_MAX) :
    ∀ (its : List AffinityItem), its ≠ [] → (∀ it ∈ its, item_below nproc it) →
      ∀ (fuel : Nat) (val : Int) (cores : List Int),
        (items_text its).length < fuel → cores.length ≤ nproc →
        parse_loop nproc fuel (items_text its) val (-1) cores
          = some ⟨(cores ++ items_cores its).take nproc, none⟩ := by
  intro its
  induction its with
  | nil => intro h; exact absurd rfl h
  | cons it rest ih =>
    intro _ hbelow fuel val cores hf hlen
    have hit := hbelow it (List.mem_cons_self _ _)
    cases rest with
    | nil =>
      have htext : items_text [it] = item_text it ++ [] := by simp [items_text]
      rw [htext] at hf ⊢
      obtain ⟨fuel', val', hf', he⟩ :=
        parse_loop_item nproc hn it hit [] trivial fuel val cores hf hlen
      obtain ⟨f', rfl⟩ : ∃ f, fuel' = f + 1 := ⟨fuel' - 1, by omega⟩
      rw [he]
      simp [parse_loop, items_cores]
    | cons it2 r =>
      have htext : items_text (it :: it2 :: r) = item_text it ++ (44 :: items_text (it2 :: r)) := by
        simp [items_text]
      rw [htext] at hf ⊢
      have h44 : no_digit_head (44 :: items_text (it2 :: r)) := by
        show ¬ is_digit 44
        unfold is_digit; omega
      obtain ⟨fuel', val', hf', he⟩ :=
        parse_loop_item nproc hn it hit _ h44 fuel val cores hf hlen
      obtain ⟨f', rfl⟩ : ∃ f, fuel' = f + 1 := ⟨fuel' - 1, by omega⟩
      rw [he]
      have hcores : items_cores (it :: it2 :: r) = item_cores it ++ items_cores (it2 :: r) := rfl
      by_cases hc : ((cores ++ item_cores it).take nproc).length < nproc
      · have hlt : (cores ++ item_cores it).length < nproc := by
          rw [List.length_take] at hc; omega
        have hX : (cores ++ item_cores it).take nproc = cores ++ item_cores it :=
          List.take_of_length_le (by omega)
        rw [hX]
        have h0 : ¬ ((44 : Nat) = 0 ∨ ¬ (cores ++ item_cores it).length < nproc) := by
          intro hh
          rcases hh with hh | hh
          · omega
          · exact hh hlt
        have hnd : ¬ is_digit 44 := by unfold is_digit; omega
        have hstep : parse_loop nproc (f' + 1) (44 :: items_text (it2 :: r)) val' (-1)
              (cores ++ item_cores it)
            = parse_loop nproc f' (items_text (it2 :: r)) val' (-1) (cores ++ item_cores it) := by
          simp only [parse_loop, if_neg h0, if_neg hnd]
          simp
        rw [hstep, ih (by simp) (fun x hx => hbelow x (List.mem_cons_of_mem _ hx)) f' val'
          (cores ++ item_cores it) (by simp at hf'; omega) (by omega), hcores,
          List.append_assoc]
      · have hge : nproc ≤ (cores ++ item_cores it).length := by
          rw [List.length_take] at hc; omega
        rw [parse_loop_full nproc f' _ _ _ _ hc, hcores, ← List.append_assoc,
          List.take_append_of_le_length hge]

theorem mem_count_down (c : Int) : ∀ (k : Nat) (v : Int),
    c ∈ count_down v k ↔ v - k < c ∧ c ≤ v := by
  intro k
  induction k with
  | zero => intro v; simp [count_down]
  | succ k ih =>
    intro v
    simp only [count_down, List.mem_cons, ih]
    push_cast
    omega

theorem mem_items_cores (c : Int) : ∀ (its : List AffinityItem),
    c ∈ items_cores its ↔ ∃ it ∈ its, c ∈ item_cores it := by
  intro its
  induction its with
  | nil => simp [items_cores]
  | cons it rest ih => simp [items_cores, ih]

theorem mem_item_cores (c : Int) (it : AffinityItem) (h : item_ordered it) :
    c ∈ item_cores it ↔ item_lists it c := by
  cases it with
  | single n => simp [item_cores, item_lists]
  | range n m =>
    have h' : digits_value n ≤ digits_value m := h
    simp only [item_cores, item_lists, List.mem_cons, mem_count_down]
    rw [Nat.cast_sub h']
    omega

theorem items_text_strlen (nproc : Nat) (its : List AffinityItem) (hne : its ≠ [])
    (hbelow : ∀ it ∈ its, item_below nproc it) : c_strlen (items_text its) ≠ 0 := by
  cases its with
  | nil => exact absurd rfl hne
  | cons it rest =>
    have hit := hbelow it (List.mem_cons_self _ _)
    have hhead : ∃ d tl, items_text (it :: rest) = d :: tl ∧ is_digit d := by
      have hnum : ∃ n tl, items_text (it :: rest) = n ++ tl ∧ is_number n := by
        cases it with
        | single n =>
          cases rest with
          | nil => exact ⟨n, [], by simp [items_text, item_text], hit.1⟩
          | cons it2 r =>
            exact ⟨n, 44 :: items_text (it2 :: r), by simp [items_text, item_text], hit.1⟩
        | range n m =>
          cases rest with
          | nil => exact ⟨n, 45 :: m, by simp [items_text, item_text], hit.1⟩
          | cons it2 r =>
            exact ⟨n, 45 :: (m ++ 44 :: items_text (it2 :: r)),
              by simp [items_text, item_text], hit.1⟩
      obtain ⟨n, tl, e, hne', hall⟩ := hnum
      cases n with
      | nil => exact absurd rfl hne'
      | cons d n' => exact ⟨d, n' ++ tl, by rw [e]; rfl, hall d (List.mem_cons_self _ _)⟩
    obtain ⟨d, tl, e, hd⟩ := hhead
    rw [e]
    have hd0 : d ≠ 0 := by unfold is_digit at hd; omega
    simp [c_strlen, List.takeWhile, hd0]

/-- C9, as written, fails: on a 2-CPU host the string `"0,0,1"`, which conforms to the
grammar with every number below 2, yields the entries `0, 0`; the loop stops once
`nproc` entries are stored, so core 1, which the string lists, is not returned. -/
theorem affinity_repeats_fill_the_array :
    c_str "0,0,1" = items_text [AffinityItem.single (c_str "0"), AffinityItem.single (c_str "0"),
      AffinityItem.single (c_str "1")] ∧
    (∀ it ∈ [AffinityItem.single (c_str "0"), AffinityItem.single (c_str "0"),
      AffinityItem.single (c_str "1")], item_below 2 it ∧ item_ordered it) ∧
    item_lists (AffinityItem.single (c_str "1")) 1 ∧
    parse_cpu_affinity_params 2 (some (c_str "0,0,1")) = some ⟨[0, 0], none⟩ ∧
    (1 : Int) ∉ ([0, 0] : List Int) := by
  decide

/-- C9 (amended): for every number of online CPUs `nproc` (a `long`) and every string
that conforms to the grammar `list := item (',' item)*`, `item := N | N '-' M` with
every number below `nproc`, `parse_cpu_affinity_params` prints no diagnostic and
returns the first `nproc` entries of the listed core ids, where `N` lists `N` and
`N-M` lists `N, M, M-1, ..., N+1`. So when the string lists at most `nproc` ids,
repetitions counted, and its ranges have `N ≤ M`, the set of returned ids is the union
of the single cores and the inclusive ranges `N..M`. `"0-2,4"` on an 8-CPU host yields
`{0,1,2,4}` (stored as `0,2,1,4`), and the empty string and `NULL` yield the empty list. -/
theorem parse_affinity_grammar (nproc : Nat) (hn : (nproc : Int) ≤ LONG_MAX)
    (its : List AffinityItem) (hne : its ≠ []) (hbelow : ∀ it ∈ its, item_below nproc it) :
    parse_cpu_affinity_params nproc (some (items_text its))
      = some ⟨(items_cores its).take nproc, none⟩ ∧
    ((items_cores its).length ≤ nproc → (∀ it ∈ its, item_ordered it) →
      ∀ c : Int, c ∈ (items_cores its).take nproc ↔ ∃ it ∈ its, item_lists it c) ∧
    parse_cpu_affinity_params 8 (some (c_str "0-2,4")) = some ⟨[0, 2, 1, 4], none⟩ ∧
    parse_cpu_affinity_params nproc (some []) = some ⟨[], none⟩ ∧
    parse_cpu_affinity_params nproc none = some ⟨[], none⟩ := by
  refine ⟨?_, ?_, by decide, by simp [parse_cpu_affinity_params, c_strlen], rfl⟩
  · have hs := items_text_strlen nproc its hne hbelow
    simp only [parse_cpu_affinity_params, if_neg hs]
    have := parse_loop_items nproc hn its hne hbelow ((items_text its).length + 1) 0 []
      (by omega) (by simp)
    simpa using this
  · intro hlen hord c
    rw [List.take_of_length_le hlen, mem_items_cores]
    constructor
    · rintro ⟨it, hit, hc⟩
      exact ⟨it, hit, (mem_item_cores c it (hord it hit)).1 hc⟩
    · rintro ⟨it, hit, hc⟩
      exact ⟨it, hit, (mem_item_cores c it (hord it hit)).2 hc⟩

theorem parse_affinity_grammar_witness :
    parse_cpu_affinity_params 4
        (some (items_text [AffinityItem.range (c_str "1") (c_str "3"), AffinityItem.single (c_str "0")]))
      = some ⟨[1, 3, 2, 0], none⟩ ∧
    (∀ c : Int, c ∈ ([1, 3, 2, 0] : List Int) ↔
      ∃ it ∈ [AffinityItem.range (c_str "1") (c_str "3"), AffinityItem.single (c_str "0")],
        item_lists it c) := by
  have h := parse_affinity_grammar 4 (by decide)
    [AffinityItem.range (c_str "1") (c_str "3"), AffinityItem.single (c_str "0")]
    (by decide) (by decide)
  exact ⟨h.1, h.2.1 (by decide) (by decide)⟩

theorem parse_loop_offending_head (nproc fuel : Nat) (hn : (nproc : Int) ≤ LONG_MAX)
    (t : List Nat) (ht : offending nproc t) (val rs : Int) (cores : List Int) :
    ∃ d, parse_loop nproc (fuel + 1) t val rs cores
      = some ⟨cores, if cores.length < nproc then some d else none⟩ := by
  by_cases hc : cores.length < nproc
  swap
  · exact ⟨AffinityDiag.invalid_range, by rw [parse_loop_full nproc fuel _ _ _ _ hc, if_neg hc]⟩
  rcases ht with ⟨c, t', rfl, hc0, hnd, h44, h45⟩ | ⟨ds, t', rfl, hnum, hhead, hbig⟩
  · refine ⟨AffinityDiag.invalid_range, ?_⟩
    have h0 : ¬ (c = 0 ∨ ¬ cores.length < nproc) := by
      intro hh
      rcases hh with hh | hh
      · exact hc0 hh
      · exact hh hc
    simp only [parse_loop, if_neg h0, if_neg hnd, if_neg h44, if_neg h45, if_pos hc]
  · refine ⟨AffinityDiag.value_too_large (strtol (ds ++ t')).1 nproc, ?_⟩
    rw [parse_loop_number nproc fuel hn ds t' hnum hhead val rs cores hc, if_pos hbig, if_pos hc]

theorem ends_with_number_cons (tok : AffinityToken) (rest : List AffinityToken)
    (h : ends_with_number rest) : ends_with_number (tok :: rest) := by
  cases rest with
  | nil => exact absurd h (by simp [ends_with_number])
  | cons tok2 r => simpa [ends_with_number] using h

theorem tokens_text_head (rest : List AffinityToken) (h : no_number_head rest) (t : List Nat)
    (ht : rest = [] → no_digit_head t) : no_digit_head (tokens_text rest ++ t) := by
  cases rest with
  | nil => simpa [tokens_text] using ht rfl
  | cons tok r =>
    cases tok with
    | number ds => exact absurd h (by simp [no_number_head])
    | comma =>
      show ¬ is_digit 44
      unfold is_digit; omega
    | dash =>
      show ¬ is_digit 45
      unfold is_digit; omega

theorem parse_loop_sep (nproc fuel : Nat) (c : Nat) (hc : c = 44 ∨ c = 45) (rest : List Nat)
    (val rs : Int) (cores : List Int) (hlen : cores.length < nproc) :
    parse_loop nproc (fuel + 1) (c :: rest) val rs cores
      = parse_loop nproc fuel rest val (if c = 44 then rs else val) cores := by
  have h0 : ¬ (c = 0 ∨ ¬ cores.length < nproc) := by
    intro hh
    rcases hh with hh | hh
    · omega
    · exact hh hlen
  have hnd : ¬ is_digit c := by unfold is_digit; omega
  simp only [parse_loop, if_neg h0, if_neg hnd]
  rcases hc with rfl | rfl
  · simp
  · simp

theorem parse_loop_prefix (nproc : Nat) (hn : (nproc : Int) ≤ LONG_MAX) (t : List Nat)
    (ht : offending nproc t) :
    ∀ (toks : List AffinityToken), tokens_below nproc toks →
      (ends_with_number toks → no_digit_head t) →
      ∀ (fuel fuel0 : Nat) (val rs : Int) (cores : List Int),
        (tokens_text toks ++ t).length < fuel → (tokens_text toks).length < fuel0 →
        cores.length ≤ nproc →
        ∃ r0 r, parse_loop nproc fuel0 (tokens_text toks) val rs cores = some r0 ∧
          r0.diag = none ∧
          parse_loop nproc fuel (tokens_text toks ++ t) val rs cores = some r ∧
          r.cores = r0.cores ∧ r0.cores.length ≤ nproc ∧
          (r0.cores.length < nproc → r.diag ≠ none) ∧
          (r0.cores.length = nproc → r.diag = none) := by
  intro toks
  induction toks with
  | nil =>
    intro _ _ fuel fuel0 val rs cores hf hf0 hlen
    obtain ⟨f, rfl⟩ : ∃ f, fuel = f + 1 := ⟨fuel - 1, by omega⟩
    obtain ⟨f0, rfl⟩ : ∃ f, fuel0 = f + 1 := ⟨fuel0 - 1, by omega⟩
    obtain ⟨d, hd⟩ := parse_loop_offending_head nproc f hn t ht val rs cores
    refine ⟨⟨cores, none⟩, ⟨cores, if cores.length < nproc then some d else none⟩,
      by simp [tokens_text, parse_loop], rfl, by simpa [tokens_text] using hd, rfl, hlen, ?_, ?_⟩
    · intro h
      have h' : cores.length < nproc := h
      simp [if_pos h']
    · intro h
      have : ¬ cores.length < nproc := by
        have h' : cores.length = nproc := h
        omega
      simp [if_neg this]
  | cons tok rest ih =>
    intro hbelow hend fuel fuel0 val rs cores hf hf0 hlen
    obtain ⟨f, rfl⟩ : ∃ f, fuel = f + 1 := ⟨fuel - 1, by omega⟩
    obtain ⟨f0, rfl⟩ : ∃ f, fuel0 = f + 1 := ⟨fuel0 - 1, by omega⟩
    by_cases hc : cores.length < nproc
    swap
    · refine ⟨⟨cores, none⟩, ⟨cores, none⟩, parse_loop_full nproc f0 _ _ _ _ hc, rfl,
        parse_loop_full nproc f _ _ _ _ hc, rfl, hlen, ?_, fun _ => rfl⟩
      intro h; exact absurd h hc
    have hend' : ends_with_number rest → no_digit_head t :=
      fun h => hend (ends_with_number_cons tok rest h)
    cases tok with
    | comma =>
      have hb : tokens_below nproc rest := hbelow
      have e1 : tokens_text (AffinityToken.comma :: rest) = 44 :: tokens_text rest := rfl
      rw [e1, List.cons_append] at hf ⊢
      rw [e1] at hf0
      rw [parse_loop_sep nproc f 44 (Or.inl rfl) _ val rs cores hc,
        parse_loop_sep nproc f0 44 (Or.inl rfl) _ val rs cores hc]
      simp only [if_true]
      exact ih hb hend' f f0 val rs cores (by simp at hf ⊢; omega) (by simp at hf0 ⊢; omega) hlen
    | dash =>
      have hb : tokens_below nproc rest := hbelow
      have e1 : tokens_text (AffinityToken.dash :: rest) = 45 :: tokens_text rest := rfl
      rw [e1, List.cons_append] at hf ⊢
      rw [e1] at hf0
      rw [parse_loop_sep nproc f 45 (Or.inr rfl) _ val rs cores hc,
        parse_loop_sep nproc f0 45 (Or.inr rfl) _ val rs cores hc]
      have e2 : (if (45 : Nat) = 44 then rs else val) = val := by simp
      rw [e2]
      exact ih hb hend' f f0 val val cores (by simp at hf ⊢; omega) (by simp at hf0 ⊢; omega) hlen
    | number ds =>
      obtain ⟨hnum, hv, hhead, hb⟩ : is_number ds ∧ digits_value ds < nproc ∧
          no_number_head rest ∧ tokens_below nproc rest := hbelow
      have hpos := number_length_pos ds hnum
      have e1 : tokens_text (AffinityToken.number ds :: rest) = ds ++ tokens_text rest := rfl
      rw [e1, List.append_assoc] at hf ⊢
      rw [e1] at hf0
      have ht1 : no_digit_head (tokens_text rest ++ t) :=
        tokens_text_head rest hhead t (fun h => hend (by rw [h]; simp [ends_with_number]))
      have ht0 : no_digit_head (tokens_text rest) := by
        have := tokens_text_head rest hhead [] (fun _ => trivial)
        simpa using this
      have hnb : ¬ nproc ≤ digits_value ds := by omega
      rw [parse_loop_number nproc f hn ds _ hnum ht1 val rs cores hc,
        parse_loop_number nproc f0 hn ds _ hnum ht0 val rs cores hc]
      simp only [if_neg hnb]
      have hf' : (tokens_text rest ++ t).length < f := by
        simp at hf ⊢; omega
      have hf0' : (tokens_text rest).length < f0 := by
        simp at hf0 ⊢; omega
      by_cases hrs : rs < 0
      · simp only [if_pos hrs]
        exact ih hb hend' f f0 (digits_value ds) rs (cores ++ [(digits_value ds : Int)]) hf' hf0'
          (by simp; omega)
      · simp only [if_neg hrs]
        refine ih hb hend' f f0
          (range_fill nproc rs ((digits_value ds : Int) - rs).toNat (digits_value ds) cores).1 (-1)
          (range_fill nproc rs ((digits_value ds : Int) - rs).toNat (digits_value ds) cores).2
          hf' hf0' ?_
        rw [range_fill_spec nproc rs _ _ _ rfl hlen]
        exact List.length_take_le _ _

theorem parse_eq_loop (nproc : Nat) (s : List Nat) :
    parse_cpu_affinity_params nproc (some s) = parse_loop nproc (s.length + 1) s 0 (-1) [] := by
  unfold parse_cpu_affinity_params
  simp only
  by_cases h : c_strlen s = 0
  · rw [if_pos h]
    cases s with
    | nil => simp [parse_loop]
    | cons c rest =>
      have hc : c = 0 := by
        by_contra hne
        simp [c_strlen, List.takeWhile, hne] at h
      simp [parse_loop, hc]
  · rw [if_neg h]

/-- C10, as written, fails: on a 4-CPU host `"0,9"` gives the diagnostic but returns
with one entry (`cores_len = 1`), the valid item before the offending one being kept;
and `"0,1,2,3,x"` gives no diagnostic at all, the loop stopping once 4 entries are
stored. -/
theorem affinity_error_keeps_entries :
    parse_cpu_affinity_params 4 (some (c_str "0,9"))
      = some ⟨[0], some (AffinityDiag.value_too_large 9 4)⟩ ∧
    parse_cpu_affinity_params 4 (some (c_str "0,1,2,3,x")) = some ⟨[0, 1, 2, 3], none⟩ := by
  decide

/-- C10 (amended): take any string made of a prefix over digits, `','` and `'-'` in which
every number is below `nproc`, followed by an offending token (a character that is
not a digit, `','` or `'-'`, or a number `nproc` or above). `parse_cpu_affinity_params`
returns exactly the entries it returns for the prefix alone, so the valid items that
precede are kept; it prints a diagnostic when fewer than `nproc` entries are stored on
reaching the offending token, and none when `nproc` entries are stored by then. When
the offending token comes first (and `nproc > 0`) the diagnostic is printed and the
list is empty; `"9"` on a 4-CPU host yields a diagnostic and the empty list. -/
theorem parse_affinity_offending (nproc : Nat) (hn : (nproc : Int) ≤ LONG_MAX)
    (toks : List AffinityToken) (t : List Nat) (hbelow : tokens_below nproc toks)
    (hend : ends_with_number toks → no_digit_head t) (ht : offending nproc t) :
    (∃ r0 r, parse_cpu_affinity_params nproc (some (tokens_text toks)) = some r0 ∧
      r0.diag = none ∧
      parse_cpu_affinity_params nproc (some (tokens_text toks ++ t)) = some r ∧
      r.cores = r0.cores ∧ r.cores.length ≤ nproc ∧
      (r0.cores.length < nproc → r.diag ≠ none) ∧
      (r0.cores.length = nproc → r.diag = none) ∧
      (toks = [] → 0 < nproc → r.cores = [] ∧ r.diag ≠ none)) ∧
    parse_cpu_affinity_params 4 (some (c_str "9"))
      = some ⟨[], some (AffinityDiag.value_too_large 9 4)⟩ := by
  refine ⟨?_, by decide⟩
  obtain ⟨r0, r, h0, hd0, h1, hc, hl, hlt, heq⟩ := parse_loop_prefix nproc hn t ht toks hbelow hend
    ((tokens_text toks ++ t).length + 1) ((tokens_text toks).length + 1) 0 (-1) []
    (by omega) (by omega) (by simp)
  refine ⟨r0, r, by rw [parse_eq_loop]; exact h0, hd0, by rw [parse_eq_loop]; exact h1, hc,
    by rw [hc]; exact hl, hlt, heq, ?_⟩
  intro hnil hpos
  subst hnil
  have hr0 : r0 = ⟨[], none⟩ := by
    simp [tokens_text, parse_loop] at h0
    exact h0.symm
  have hc' : r.cores = [] := by rw [hc, hr0]
  refine ⟨hc', hlt ?_⟩
  rw [hr0]
  exact hpos

theorem parse_affinity_offending_witness :
    ∃ r, parse_cpu_affinity_params 4 (some (c_str "0,1-2,x7")) = some r ∧
      r.cores = [0, 1, 2] ∧ r.diag ≠ none := by
  obtain ⟨⟨r0, r, h0, _, h1, hc, _, hlt, _, _⟩, _⟩ := parse_affinity_offending 4 (by decide)
    [AffinityToken.number (c_str "0"), AffinityToken.comma, AffinityToken.number (c_str "1"),
      AffinityToken.dash, AffinityToken.number (c_str "2"), AffinityToken.comma]
    (c_str "x7")
    (by simp only [tokens_below]; decide)
    (fun h => False.elim h)
    (Or.inl ⟨120, c_str "7", by decide, by decide, by decide, by decide, by decide⟩)
  have e0 : r0 = ⟨[0, 1, 2], none⟩ := by
    have : parse_cpu_affinity_params 4 (some (tokens_text
      [AffinityToken.number (c_str "0"), AffinityToken.comma, AffinityToken.number (c_str "1"),
        AffinityToken.dash, AffinityToken.number (c_str "2"), AffinityToken.comma]))
        = some ⟨[0, 1, 2], none⟩ := by decide
    rw [this] at h0
    exact (Option.some.inj h0).symm
  have hc' : r.cores = [0, 1, 2] := by rw [hc, e0]
  exact ⟨r, h1, hc', hlt (by rw [e0]; decide)⟩

theorem strtol_digits_length : ∀ (s : List Nat) (acc : Nat),
    (strtol_digits s acc).2.length ≤ s.length := by
  intro s
  induction s with
  | nil => intro acc; simp [strtol_digits]
  | cons c cs ih =>
    intro acc
    by_cases hc : is_digit c
    · simp only [strtol_digits, if_pos hc, List.length_cons]
      exact Nat.le_succ_of_le (ih _)
    · simp [strtol_digits, hc]

theorem strtol_rest_length (c : Nat) (rest : List Nat) (hc : is_digit c) :
    (strtol (c :: rest)).2.length ≤ rest.length := by
  unfold strtol
  simp only [strtol_digits, if_pos hc]
  exact strtol_digits_length rest _

theorem strtol_value_nonneg (s : List Nat) : 0 ≤ (strtol s).1 := by
  unfold strtol LONG_MAX
  simp only
  split
  · exact Int.ofNat_nonneg _
  · norm_num

theorem strtol_digits_dash : ∀ (s : List Nat) (acc : Nat),
    strtol_digits (s ++ [45]) acc
      = ((strtol_digits s acc).1, (strtol_digits s acc).2 ++ [45]) := by
  intro s
  induction s with
  | nil =>
    intro acc
    have h : ¬ is_digit 45 := by unfold is_digit; omega
    simp [strtol_digits, h]
  | cons c cs ih =>
    intro acc
    by_cases hc : is_digit c
    · simp only [List.cons_append, strtol_digits, if_pos hc]
      exact ih _
    · simp [strtol_digits, hc]

theorem strtol_dash (s : List Nat) :
    strtol (s ++ [45]) = ((strtol s).1, (strtol s).2 ++ [45]) := by
  unfold strtol
  simp only [strtol_digits_dash]

theorem parse_loop_cons (nproc fuel : Nat) (c : Nat) (rest : List Nat) (val rs : Int)
    (cores : List Int) :
    parse_loop nproc (fuel + 1) (c :: rest) val rs cores
      = if c = 0 ∨ ¬ cores.length < nproc then some ⟨cores, none⟩
        else if is_digit c then
          if (strtol (c :: rest)).1 < 0 ∨ (strtol (c :: rest)).1 ≥ (nproc : Int) then
            some ⟨cores, some (AffinityDiag.value_too_large (strtol (c :: rest)).1 nproc)⟩
          else if rs < 0 then
            parse_loop nproc fuel (strtol (c :: rest)).2 (strtol (c :: rest)).1 rs
              (cores ++ [(strtol (c :: rest)).1])
          else
            parse_loop nproc fuel (strtol (c :: rest)).2
              (range_fill nproc rs ((strtol (c :: rest)).1 - rs).toNat (strtol (c :: rest)).1 cores).1
              (-1)
              (range_fill nproc rs ((strtol (c :: rest)).1 - rs).toNat (strtol (c :: rest)).1 cores).2
        else if c = 44 then parse_loop nproc fuel rest val rs cores
        else if c = 45 then parse_loop nproc fuel rest val val cores
        else some ⟨cores, some AffinityDiag.invalid_range⟩ := rfl

theorem parse_loop_nil (nproc fuel : Nat) (val rs : Int) (cores : List Int) :
    parse_loop nproc (fuel + 1) [] val rs cores = some ⟨cores, none⟩ := rfl

theorem parse_loop_trailing_dash (nproc : Nat) :
    ∀ (fuel : Nat) (s : List Nat) (val rs : Int) (cores : List Int), s.length < fuel →
      parse_loop nproc (fuel + 1) (s ++ [45]) val rs cores
        = parse_loop nproc fuel s val rs cores := by
  intro fuel
  induction fuel with
  | zero => intro s val rs cores h; omega
  | succ f ih =>
    intro s val rs cores hlen
    cases s with
    | nil =>
      have hnd : ¬ is_digit 45 := by unfold is_digit; omega
      rw [List.nil_append, parse_loop_cons, parse_loop_nil, parse_loop_nil]
      by_cases hc : cores.length < nproc
      · simp [hc, hnd]
      · simp [hc]
    | cons c rest =>
      have hrest : rest.length < f := by simp at hlen; omega
      rw [List.cons_append, parse_loop_cons, parse_loop_cons]
      by_cases h0 : c = 0 ∨ ¬ cores.length < nproc
      · simp only [if_pos h0]
      · by_cases hd : is_digit c
        · have hdash := strtol_dash (c :: rest)
          rw [List.cons_append] at hdash
          have hl := strtol_rest_length c rest hd
          simp only [if_neg h0, if_pos hd, hdash]
          by_cases hbig : (strtol (c :: rest)).1 < 0 ∨ (strtol (c :: rest)).1 ≥ (nproc : Int)
          · simp only [if_pos hbig]
          · simp only [if_neg hbig]
            by_cases hrs : rs < 0
            · simp only [if_pos hrs]
              exact ih (strtol (c :: rest)).2 _ _ _ (by omega)
            · simp only [if_neg hrs]
              exact ih (strtol (c :: rest)).2 _ _ _ (by omega)
        · simp only [if_neg h0, if_neg hd]
          by_cases h44 : c = 44
          · simp only [if_pos h44]
            exact ih rest _ _ _ hrest
          · simp only [if_neg h44]
            by_cases h45 : c = 45
            · simp only [if_pos h45]
              exact ih rest _ _ _ hrest
            · simp only [if_neg h45]

theorem range_fill_inv (nproc : Nat) (rs : Int) (hrs : 0 ≤ rs) :
    ∀ (k : Nat) (val : Int) (cores : List Int), 0 ≤ val → val < (nproc : Int) →
      cores.length ≤ nproc → (∀ c ∈ cores, 0 ≤ c ∧ c < (nproc : Int)) →
      0 ≤ (range_fill nproc rs k val cores).1 ∧
      (range_fill nproc rs k val cores).1 < (nproc : Int) ∧
      (range_fill nproc rs k val cores).2.length ≤ nproc ∧
      ∀ c ∈ (range_fill nproc rs k val cores).2, 0 ≤ c ∧ c < (nproc : Int) := by
  intro k
  induction k with
  | zero => intro val cores h0 h1 h2 h3; exact ⟨h0, h1, h2, h3⟩
  | succ k ih =>
    intro val cores h0 h1 h2 h3
    by_cases hc : val > rs ∧ cores.length < nproc
    · simp only [range_fill, if_pos hc]
      refine ih (val - 1) (cores ++ [val]) (by omega) (by omega) (by simp; omega) ?_
      intro c hmem
      rcases List.mem_append.1 hmem with h | h
      · exact h3 c h
      · have : c = val := by simpa using h
        subst this
        exact ⟨h0, h1⟩
    · simp only [range_fill, if_neg hc]
      exact ⟨h0, h1, h2, h3⟩

theorem parse_loop_inv (nproc : Nat) :
    ∀ (fuel : Nat) (s : List Nat) (val rs : Int) (cores : List Int), s.length < fuel →
      0 ≤ val → val < (nproc : Int) → cores.length ≤ nproc →
      (∀ c ∈ cores, 0 ≤ c ∧ c < (nproc : Int)) →
      ∃ r, parse_loop nproc fuel s val rs cores = some r ∧ r.cores.length ≤ nproc ∧
        ∀ c ∈ r.cores, 0 ≤ c ∧ c < (nproc : Int) := by
  intro fuel
  induction fuel with
  | zero => intro s val rs cores h; omega
  | succ f ih =>
    intro s val rs cores hlen hv0 hv1 hcl hce
    cases s with
    | nil => exact ⟨⟨cores, none⟩, rfl, hcl, hce⟩
    | cons c rest =>
      have hrest : rest.length < f := by simp at hlen; omega
      rw [parse_loop_cons]
      by_cases h0 : c = 0 ∨ ¬ cores.length < nproc
      · simp only [if_pos h0]
        exact ⟨⟨cores, none⟩, rfl, hcl, hce⟩
      · have hlt : cores.length < nproc := by
          by_contra hh
          exact h0 (Or.inr hh)
        by_cases hd : is_digit c
        · have hl := strtol_rest_length c rest hd
          simp only [if_neg h0, if_pos hd]
          by_cases hbig : (strtol (c :: rest)).1 < 0 ∨ (strtol (c :: rest)).1 ≥ (nproc : Int)
          · simp only [if_pos hbig]
            exact ⟨_, rfl, hcl, hce⟩
          · simp only [if_neg hbig]
            have hb0 : 0 ≤ (strtol (c :: rest)).1 := by omega
            have hb1 : (strtol (c :: rest)).1 < (nproc : Int) := by omega
            by_cases hrs : rs < 0
            · simp only [if_pos hrs]
              refine ih (strtol (c :: rest)).2 _ _ _ (by omega) hb0 hb1 (by simp; omega) ?_
              intro x hmem
              rcases List.mem_append.1 hmem with h | h
              · exact hce x h
              · have : x = (strtol (c :: rest)).1 := by simpa using h
                subst this
                exact ⟨hb0, hb1⟩
            · simp only [if_neg hrs]
              obtain ⟨g0, g1, g2, g3⟩ := range_fill_inv nproc rs (by omega)
                ((strtol (c :: rest)).1 - rs).toNat (strtol (c :: rest)).1 cores hb0 hb1 hcl hce
              exact ih (strtol (c :: rest)).2 _ _ _ (by omega) g0 g1 g2 g3
        · simp only [if_neg h0, if_neg hd]
          by_cases h44 : c = 44
          · simp only [if_pos h44]
            exact ih rest _ _ _ hrest hv0 hv1 hcl hce
          · simp only [if_neg h44]
            by_cases h45 : c = 45
            · simp only [if_pos h45]
              exact ih rest _ _ _ hrest hv0 hv1 hcl hce
            · simp only [if_neg h45]
              exact ⟨_, rfl, hcl, hce⟩

/-- C11, as written, fails: on a 4-CPU host the string `"0-"`, a range with no upper
bound, is parsed without any diagnostic; the entry `0` is returned. -/
theorem affinity_open_range_accepted :
    parse_cpu_affinity_params 4 (some (c_str "0-")) = some ⟨[0], none⟩ ∧
    (∀ r, parse_cpu_affinity_params 4 (some (c_str "0-")) = some r → r.diag = none) := by
  decide

/-- C11 (amended): for every string that ends in `'-'`, in particular one that ends in a
range with no upper bound, `parse_cpu_affinity_params` returns exactly what it returns
for the string without that last `'-'`: the open range is not reported, and a
diagnostic is printed only if the rest of the string makes the parser print one. So a
string over digits, `','` and `'-'` whose numbers are all below `nproc` (a `long`) and
that ends in `'-'` gives no diagnostic, and `"0-"` gives the single entry `0` and no
diagnostic on every host with at least one CPU. -/
theorem parse_affinity_open_range (nproc : Nat) (s : List Nat) :
    parse_cpu_affinity_params nproc (some (s ++ [45]))
      = parse_cpu_affinity_params nproc (some s) ∧
    ((nproc : Int) ≤ LONG_MAX → ∀ toks, tokens_below nproc toks →
      ∃ r, parse_cpu_affinity_params nproc (some (tokens_text toks ++ [45])) = some r ∧
        r.diag = none) ∧
    (1 ≤ nproc → parse_cpu_affinity_params nproc (some (c_str "0-")) = some ⟨[0], none⟩) := by
  have hmain : ∀ t : List Nat, parse_cpu_affinity_params nproc (some (t ++ [45]))
      = parse_cpu_affinity_params nproc (some t) := by
    intro t
    rw [parse_eq_loop, parse_eq_loop]
    have : (t ++ [45]).length + 1 = (t.length + 1) + 1 := by simp
    rw [this]
    exact parse_loop_trailing_dash nproc (t.length + 1) t 0 (-1) [] (by omega)
  refine ⟨hmain s, ?_, ?_⟩
  · intro hn toks hbelow
    have hoff : offending nproc [120] :=
      Or.inl ⟨120, [], rfl, by decide, by decide, by decide, by decide⟩
    obtain ⟨r0, r, h0, hd0, _⟩ := parse_loop_prefix nproc hn [120] hoff toks hbelow
      (fun _ => by decide) ((tokens_text toks ++ [120]).length + 1)
      ((tokens_text toks).length + 1) 0 (-1) [] (by omega) (by omega) (by simp)
    refine ⟨r0, ?_, hd0⟩
    rw [hmain, parse_eq_loop]
    exact h0
  · intro hpos
    have e : c_str "0-" = [48] ++ [45] := by decide
    rw [e, hmain, parse_eq_loop]
    have h1 : ¬ ((48 : Nat) = 0 ∨ ¬ ([] : List Int).length < nproc) := by
      intro hh
      rcases hh with hh | hh
      · omega
      · exact hh (by simpa using hpos)
    have hd : is_digit 48 := by decide
    have hst : strtol [48] = (0, []) := by decide
    have h2 : ¬ ((0 : Int) < 0 ∨ (0 : Int) ≥ (nproc : Int)) := by omega
    rw [show [48].length + 1 = 1 + 1 from rfl, parse_loop_cons]
    simp only [if_neg h1, if_pos hd, hst, if_neg h2]
    rfl

theorem parse_affinity_open_range_witness :
    parse_cpu_affinity_params 8 (some (c_str "1,3-")) = some ⟨[1, 3], none⟩ ∧
    (∃ r, parse_cpu_affinity_params 8 (some (c_str "1,3-")) = some r ∧ r.diag = none) ∧
    parse_cpu_affinity_params 8 (some (c_str "0-")) = some ⟨[0], none⟩ := by
  have h := parse_affinity_open_range 8 (c_str "1,3")
  refine ⟨?_, ?_, h.2.2 (by decide)⟩
  · have e : parse_cpu_affinity_params 8 (some (c_str "1,3")) = some ⟨[1, 3], none⟩ := by decide
    rw [← e]
    exact h.1
  · exact h.2.1 (by decide)
      [AffinityToken.number (c_str "1"), AffinityToken.comma, AffinityToken.number (c_str "3")]
      (by simp only [tokens_below]; decide)

/-- C19: for every input string and every number of online CPUs `nproc ≥ 1`,
`parse_cpu_affinity_params` returns (with or without a diagnostic), the number of
entries it reports is at most `nproc`, the size of the array it allocated, and every
entry is a core id in `[0, nproc)`. The same holds for the `NULL` string. -/
theorem parse_affinity_within_bounds (nproc : Nat) (hn : 1 ≤ nproc) (config : Option (List Nat)) :
    ∃ r, parse_cpu_affinity_params nproc config = some r ∧ r.cores.length ≤ nproc ∧
      ∀ c ∈ r.cores, 0 ≤ c ∧ c < (nproc : Int) := by
  cases config with
  | none => exact ⟨⟨[], none⟩, rfl, by simp, by simp⟩
  | some s =>
    rw [parse_eq_loop]
    exact parse_loop_inv nproc (s.length + 1) s 0 (-1) [] (by omega) (by omega) (by omega)
      (by simp) (by simp)

theorem parse_affinity_within_bounds_witness :
    ∃ r, parse_cpu_affinity_params 2 (some (c_str "1-0,0-1,7,x")) = some r ∧
      r.cores.length ≤ 2 ∧ ∀ c ∈ r.cores, 0 ≤ c ∧ c < ((2 : Nat) : Int) :=
  parse_affinity_within_bounds 2 (by decide) (some (c_str "1-0,0-1,7,x"))

/-! ## Theorems: thread pinning -/

theorem items_cores_length_pos (its : List AffinityItem) (hne : its ≠ []) :
    0 < (items_cores its).length := by
  cases its with
  | nil => exact absurd rfl hne
  | cons it rest =>
    cases it with
    | single n => simp [items_cores, item_cores]
    | range n m => simp [items_cores, item_cores]

theorem pinned_cpu_in_bounds (nproc : Nat) (hn : 1 ≤ nproc) (cores : List Int) (i : Nat)
    (hce : ∀ c ∈ cores, 0 ≤ c ∧ c < (nproc : Int)) :
    ∃ cpu, pinned_cpu nproc cores i = some cpu ∧ 0 ≤ cpu ∧ cpu < (nproc : Int) := by
  unfold pinned_cpu
  by_cases hl : cores.length ≠ 0
  · rw [if_pos hl]
    have hlt : i % cores.length < cores.length := Nat.mod_lt _ (by omega)
    refine ⟨cores.get ⟨i % cores.length, hlt⟩, List.get?_eq_get hlt, ?_⟩
    exact hce _ (List.get_mem _ _ _)
  · rw [if_neg hl, if_neg (by omega)]
    have hlt : i % nproc < nproc := Nat.mod_lt _ (by omega)
    exact ⟨_, rfl, by omega, by omega⟩

/-- C12, as written, fails: with the affinity `"0-2"` on a 4-CPU host thread 1 of the
pool is pinned to CPU 2, while the second core of the specification read left to
right with the range in increasing order (`0, 1, 2`) is CPU 1. -/
theorem pinning_range_not_increasing :
    c_str "0-2" = items_text [AffinityItem.range (c_str "0") (c_str "2")] ∧
    items_cores_increasing [AffinityItem.range (c_str "0") (c_str "2")] = [0, 1, 2] ∧
    ([0, 1, 2] : List Int).get? (1 % 3) = some 1 ∧
    pool_pinned_cpu 4 (some (c_str "0-2")) 1 = some 2 := by
  decide

/-- C12 (amended): on a host with `nproc ≥ 1` CPUs, thread number `i` of a pool is pinned
to exactly one CPU, a core id in `[0, nproc)`. When the pool's affinity string conforms
to the grammar with every number below `nproc` and lists `L ≤ nproc` cores, that CPU is
entry number `i mod L` of the list the parser stores, which reads the string left to
right with `N` giving `N` and `N-M` giving `N, M, M-1, ..., N+1`; when the string is
empty or `NULL` it is `i mod nproc`. `"0-1,3"` on a 4-CPU host pins threads 0, 1, 2 to
CPUs 0, 1, 3. -/
theorem pool_thread_pinning (nproc : Nat) (hn1 : 1 ≤ nproc) (hn : (nproc : Int) ≤ LONG_MAX)
    (i : Nat) :
    (∀ config, ∃ cpu, pool_pinned_cpu nproc config i = some cpu ∧ 0 ≤ cpu ∧ cpu < (nproc : Int)) ∧
    (∀ its, its ≠ [] → (∀ it ∈ its, item_below nproc it) → (items_cores its).length ≤ nproc →
      pool_pinned_cpu nproc (some (items_text its)) i
        = (items_cores its).get? (i % (items_cores its).length)) ∧
    pool_pinned_cpu nproc (some []) i = some ((i % nproc : Nat) : Int) ∧
    pool_pinned_cpu nproc none i = some ((i % nproc : Nat) : Int) ∧
    (pool_pinned_cpu 4 (some (c_str "0-1,3")) 0 = some 0 ∧
     pool_pinned_cpu 4 (some (c_str "0-1,3")) 1 = some 1 ∧
     pool_pinned_cpu 4 (some (c_str "0-1,3")) 2 = some 3) := by
  have hnil : ∀ c : Option (List Nat), parse_cpu_affinity_params nproc c = some ⟨[], none⟩ →
      pool_pinned_cpu nproc c i = some ((i % nproc : Nat) : Int) := by
    intro c hc
    unfold pool_pinned_cpu
    rw [hc]
    have : ¬ nproc = 0 := by omega
    simp [pinned_cpu, this]
  refine ⟨?_, ?_, hnil _ (by simp [parse_cpu_affinity_params, c_strlen]), hnil _ rfl, by decide⟩
  · intro config
    have hinv : ∃ r, parse_cpu_affinity_params nproc config = some r ∧ r.cores.length ≤ nproc ∧
        ∀ c ∈ r.cores, 0 ≤ c ∧ c < (nproc : Int) := by
      cases config with
      | none => exact ⟨⟨[], none⟩, rfl, by simp, by simp⟩
      | some s =>
        rw [parse_eq_loop]
        exact parse_loop_inv nproc (s.length + 1) s 0 (-1) [] (by omega) (by omega) (by omega)
          (by simp) (by simp)
    obtain ⟨r, hr, _, hce⟩ := hinv
    unfold pool_pinned_cpu
    rw [hr]
    exact pinned_cpu_in_bounds nproc hn1 r.cores i hce
  · intro its hne hbelow hlen
    have hs := items_text_strlen nproc its hne hbelow
    have hp : parse_cpu_affinity_params nproc (some (items_text its))
        = some ⟨(items_cores its).take nproc, none⟩ := by
      simp only [parse_cpu_affinity_params, if_neg hs]
      have := parse_loop_items nproc hn its hne hbelow ((items_text its).length + 1) 0 []
        (by omega) (by simp)
      simpa using this
    have hpos := items_cores_length_pos its hne
    unfold pool_pinned_cpu
    rw [hp, List.take_of_length_le hlen]
    simp only [pinned_cpu]
    rw [if_pos (by omega)]

theorem pool_thread_pinning_witness :
    pool_pinned_cpu 8 (some (items_text [AffinityItem.single (c_str "5"),
        AffinityItem.range (c_str "0") (c_str "2")])) 6 = some 2 ∧
    (∃ cpu, pool_pinned_cpu 8 (some (c_str "3,x")) 9 = some cpu ∧ 0 ≤ cpu ∧ cpu < ((8 : Nat) : Int)) := by
  have h := pool_thread_pinning 8 (by decide) (by decide) 6
  have h' := pool_thread_pinning 8 (by decide) (by decide) 9
  exact ⟨h.2.1 [AffinityItem.single (c_str "5"), AffinityItem.range (c_str "0") (c_str "2")]
    (by decide) (by decide) (by decide), h'.1 (some (c_str "3,x"))⟩

/-! ## Theorems: the backoff counter in the long run -/

theorem backoff_snd_cases (P F n : Nat) (hP : P + 1600 < 2 ^ 32) (hn : n < 2 ^ 32) :
    (backoff P F n).2 = if n ≤ P then n + 1 else P + 2 * min (n - P) 800 := by
  by_cases h : n ≤ P
  · rw [if_pos h]
    unfold backoff U32
    rw [if_pos h]
    exact Nat.mod_eq_of_lt (by omega)
  · rw [if_neg h, backoff_snd_above P F n hn (by omega)]
    exact Nat.mod_eq_of_lt (by omega)

theorem backoff_iter_succ (P F : Nat) : ∀ (k n : Nat),
    (backoff_iter P F (k + 1) n).2 = (backoff P F (backoff_iter P F k n).2).2 := by
  intro k
  induction k with
  | zero => intro n; simp [backoff_iter]
  | succ k ih =>
    intro n
    have h1 : (backoff_iter P F (k + 1 + 1) n).2
        = (backoff_iter P F (k + 1) (backoff P F n).2).2 := rfl
    have h2 : (backoff_iter P F (k + 1) n).2 = (backoff_iter P F k (backoff P F n).2).2 := rfl
    rw [h1, ih, h2]

theorem backoff_iter_le (P F : Nat) (hP : P + 1600 < 2 ^ 32) : ∀ (k : Nat),
    (backoff_iter P F k 0).2 ≤ P + 1600 := by
  intro k
  induction k with
  | zero => simp [backoff_iter]
  | succ k ih =>
    rw [backoff_iter_succ, backoff_snd_cases P F _ hP (by omega)]
    split <;> omega

/-- C20: for every spin threshold `P` with `P + 1600 < 2^32` (any sleep factor) and
every 32-bit counter value `n`, `backoff(n) ≤ P + 1600`, and `backoff(n) = P + 1600`
whenever `n > P + 800`. Hence the counter of a loop that starts at 0 and feeds each
result back into `backoff` never decreases, stays at or below `P + 1600` and so never
wraps around `2^32`, and once it equals `P + 1600` it keeps that value for ever; with
the default threshold 100 the fixed point is 1700. -/
theorem backoff_counter_bounded (P F n : Nat) (hP : P + 1600 < 2 ^ 32) (hn : n < 2 ^ 32) :
    (backoff P F n).2 ≤ P + 1600 ∧
    (P + 800 < n → (backoff P F n).2 = P + 1600) ∧
    (∀ k, (backoff_iter P F k 0).2 ≤ (backoff_iter P F (k + 1) 0).2 ∧
      (backoff_iter P F k 0).2 ≤ P + 1600 ∧
      (backoff_iter P F k 0).2 < 2 ^ 32 ∧
      ((backoff_iter P F k 0).2 = P + 1600 →
        ∀ j, (backoff_iter P F (k + j) 0).2 = P + 1600)) ∧
    (backoff default_backoff_maxpause F 1700).2 = 1700 := by
  have hc := backoff_snd_cases P F n hP hn
  refine ⟨?_, ?_, ?_, ?_⟩
  · rw [hc]; split <;> omega
  · intro h; rw [hc, if_neg (by omega)]; omega
  · intro k
    have hle := backoff_iter_le P F hP k
    refine ⟨?_, hle, by omega, ?_⟩
    · rw [backoff_iter_succ, backoff_snd_cases P F _ hP (by omega)]
      split <;> omega
    · intro heq j
      induction j with
      | zero => exact heq
      | succ j ih =>
        have : k + (j + 1) = (k + j) + 1 := by omega
        rw [this, backoff_iter_succ, ih, backoff_snd_cases P F _ hP (by omega),
          if_neg (by omega)]
        omega
  · have := backoff_snd_cases default_backoff_maxpause F 1700 (by decide) (by decide)
    rw [this]
    decide

theorem backoff_counter_bounded_witness :
    (backoff 100 4000 5000).2 ≤ 100 + 1600 ∧ (backoff 100 4000 5000).2 = 100 + 1600 ∧
    (backoff_iter 100 4000 7 0).2 ≤ (backoff_iter 100 4000 (7 + 1) 0).2 := by
  have h := backoff_counter_bounded 100 4000 5000 (by decide) (by decide)
  exact ⟨h.1, h.2.1 (by decide), (h.2.2.1 7).1⟩

/-! ## Theorems: disk probe and disk registration -/

theorem is_disk_encrypted_cases (host : DiskHost) (fd : Int)
    (hle : (host.pread fd 2 EXT4_MAGIC_OFFSET).1 ≤ 2)
    (hlen : (host.pread fd 2 EXT4_MAGIC_OFFSET).1 = 2 →
      (host.pread fd 2 EXT4_MAGIC_OFFSET).2.length = 2) :
    ((is_disk_encrypted host fd).1 = 0 ↔
      (((host.pread fd 2 EXT4_MAGIC_OFFSET).1 = 2 ∧
          (host.pread fd 2 EXT4_MAGIC_OFFSET).2 = [0x53, 0xEF]) ∨
        (host.pread fd 2 EXT4_MAGIC_OFFSET).1 < 2)) ∧
    ((is_disk_encrypted host fd).2 = true ↔ (host.pread fd 2 EXT4_MAGIC_OFFSET).1 < 2) ∧
    (¬ (((host.pread fd 2 EXT4_MAGIC_OFFSET).1 = 2 ∧
          (host.pread fd 2 EXT4_MAGIC_OFFSET).2 = [0x53, 0xEF]) ∨
        (host.pread fd 2 EXT4_MAGIC_OFFSET).1 < 2) → (is_disk_encrypted host fd).1 = 1) := by
  unfold is_disk_encrypted
  generalize host.pread fd 2 EXT4_MAGIC_OFFSET = r at hle hlen ⊢
  obtain ⟨n, data⟩ := r
  simp only at hle hlen ⊢
  by_cases h2 : n = 2
  · subst h2
    have hl := hlen rfl
    match data, hl with
    | [a, b], _ =>
      by_cases hm : a = 0x53 ∧ b = 0xEF
      · obtain ⟨rfl, rfl⟩ := hm
        simp
      · have hne : ¬ ([a, b] = [0x53, 0xEF]) := by
          intro h
          simp at h
          exact hm h
        simp [hm, hne]
  · have hlt : n < 2 := by omega
    simp [h2, hlt]

/-- C13: for every disk file, `is_disk_encrypted` returns 0 (false) exactly when the two
bytes read at offset `1024 + 0x38` are `0x53` then `0xEF`, or the `pread` at that
offset delivers fewer than 2 bytes (a failed read included), and `perror` is called
exactly in the latter case; for a full 2-byte read of any other byte pair it returns
1 (true). For a regular file with contents `img` the two cases are: the bytes 1080
and 1081 of `img` are `0x53 0xEF`, or `img` is shorter than 1082 bytes. -/
theorem disk_probe_result (host : DiskHost) (fd : Int)
    (hle : (host.pread fd 2 EXT4_MAGIC_OFFSET).1 ≤ 2)
    (hlen : (host.pread fd 2 EXT4_MAGIC_OFFSET).1 = 2 →
      (host.pread fd 2 EXT4_MAGIC_OFFSET).2.length = 2) :
    EXT4_MAGIC_OFFSET = 1024 + 0x38 ∧
    ((is_disk_encrypted host fd).1 = 0 ↔
      (((host.pread fd 2 EXT4_MAGIC_OFFSET).1 = 2 ∧
          (host.pread fd 2 EXT4_MAGIC_OFFSET).2 = [0x53, 0xEF]) ∨
        (host.pread fd 2 EXT4_MAGIC_OFFSET).1 < 2)) ∧
    ((is_disk_encrypted host fd).2 = true ↔ (host.pread fd 2 EXT4_MAGIC_OFFSET).1 < 2) ∧
    (¬ (((host.pread fd 2 EXT4_MAGIC_OFFSET).1 = 2 ∧
          (host.pread fd 2 EXT4_MAGIC_OFFSET).2 = [0x53, 0xEF]) ∨
        (host.pread fd 2 EXT4_MAGIC_OFFSET).1 < 2) → (is_disk_encrypted host fd).1 = 1) ∧
    (∀ img : List Nat, host.pread fd 2 EXT4_MAGIC_OFFSET = pread_image img 2 EXT4_MAGIC_OFFSET →
      ((is_disk_encrypted host fd).1 = 0 ↔
        ((img.drop 1080).take 2 = [0x53, 0xEF] ∨ img.length < 1082))) := by
  obtain ⟨h1, h2, h3⟩ := is_disk_encrypted_cases host fd hle hlen
  refine ⟨rfl, h1, h2, h3, ?_⟩
  intro img himg
  rw [h1, himg]
  have hoff : EXT4_MAGIC_OFFSET = 1080 := rfl
  simp only [pread_image, hoff]
  have hl : ((img.drop 1080).take 2).length = min 2 (img.length - 1080) := by
    simp [List.length_take, List.length_drop]
  constructor
  · rintro (⟨_, h⟩ | h)
    · exact Or.inl h
    · right
      have : (((img.drop 1080).take 2).length : Int) < 2 := h
      omega
  · rintro (h | h)
    · left
      exact ⟨by rw [h]; rfl, h⟩
    · right
      have : ((img.drop 1080).take 2).length < 2 := by omega
      exact_mod_cast this

theorem disk_probe_result_witness :
    (is_disk_encrypted ⟨fun _ _ => 3, fun _ => 0, fun _ _ => 0, fun _ _ _ => (2, [0x53, 0xEF])⟩ 3).1
      = 0 ∧
    (is_disk_encrypted ⟨fun _ _ => 3, fun _ => 0, fun _ _ => 0, fun _ _ _ => (2, [0x53, 0xEE])⟩ 3).1
      = 1 := by
  have h := disk_probe_result
    ⟨fun _ _ => 3, fun _ => 0, fun _ _ => 0, fun _ _ _ => (2, [0x53, 0xEF])⟩ 3
    (by decide) (by decide)
  have h' := disk_probe_result
    ⟨fun _ _ => 3, fun _ => 0, fun _ _ => 0, fun _ _ _ => (2, [0x53, 0xEE])⟩ 3
    (by decide) (by decide)
  exact ⟨h.2.1.2 (Or.inl ⟨rfl, rfl⟩), h'.2.2.2.1 (by decide)⟩

theorem c_string_all_ne_zero (s : List Nat) : ∀ c ∈ c_string s, c ≠ 0 := by
  intro c hc
  have := List.mem_takeWhile_imp hc
  simpa using this

theorem takeWhile_append_stop (l r : List Nat) (h : ∀ c ∈ l, c ≠ 0) :
    (l ++ 0 :: r).takeWhile (fun c => decide (c ≠ 0)) = l := by
  induction l with
  | nil => simp
  | cons a l ih =>
    have ha : a ≠ 0 := h a (List.mem_cons_self _ _)
    have := ih (fun c hc => h c (List.mem_cons_of_mem _ hc))
    rw [List.cons_append, List.takeWhile_cons_of_pos (by simpa using ha), this]

theorem c_string_strncpy_terminated (src : List Nat) (n : Nat) (h : c_strlen src ≤ n) :
    c_string (strncpy_terminated src n) = c_string src ∧
    (strncpy_terminated src n).length = n + 1 := by
  have hl : (c_string src).length ≤ n := h
  unfold strncpy_terminated
  rw [List.take_of_length_le hl]
  constructor
  · rw [List.append_assoc]
    have hz : List.replicate (n - (c_string src).length) 0 ++ [0]
        = 0 :: List.replicate (n - (c_string src).length) 0 := by
      rw [← List.replicate_succ, ← List.replicate_succ']
    rw [hz]
    exact takeWhile_append_stop _ _ (c_string_all_ne_zero src)
  · simp
    omega

/-- C14: for every call `register_hd(encl, path, mnt, readonly)`: if `mnt` is longer
than the mount-path bound the launcher calls `exit(EXIT_FAILURE)` and no disk is
added; otherwise, if `path` is `NULL` or empty, the disk table is returned unchanged;
otherwise, when `open` and the two `fcntl` calls succeed (and the array has room),
exactly the entry at index `num_disks` is written: its mount path is the whole string
`mnt`, NUL-terminated inside its buffer of bound + 1 characters, its read-only flag is
`readonly`, its fd is the one `open` returned for the flag `O_RDONLY` when `readonly`
is set and `O_RDWR` when it is not, and its encrypted flag is the result of the magic
probe on that fd; `num_disks` grows by exactly 1 and every other entry, in particular
every entry below the old `num_disks`, is unchanged. -/
theorem register_hd_effect (max_len : Nat) (host : DiskHost) (encl : disk_table)
    (path : Option (List Nat)) (mnt : List Nat) (readonly : Int) :
    (c_strlen mnt > max_len →
      register_hd max_len host encl path mnt readonly = Outcome.exit EXIT_FAILURE) ∧
    (c_strlen mnt ≤ max_len → (path = none ∨ ∃ p, path = some p ∧ c_strlen p = 0) →
      register_hd max_len host encl path mnt readonly = Outcome.ok encl) ∧
    (∀ p, c_strlen mnt ≤ max_len → path = some p → c_strlen p ≠ 0 →
      host.sys_open p (if readonly ≠ 0 then O_RDONLY else O_RDWR) ≠ -1 →
      host.fcntl_getfl (host.sys_open p (if readonly ≠ 0 then O_RDONLY else O_RDWR)) ≠ -1 →
      host.fcntl_setfl (host.sys_open p (if readonly ≠ 0 then O_RDONLY else O_RDWR))
        ((host.fcntl_getfl (host.sys_open p (if readonly ≠ 0 then O_RDONLY else O_RDWR))).toNat
          ||| O_NONBLOCK) ≠ -1 →
      encl.num_disks < encl.disks.length →
      ∃ encl' e, register_hd max_len host encl path mnt readonly = Outcome.ok encl' ∧
        encl'.num_disks = encl.num_disks + 1 ∧
        encl'.disks.length = encl.disks.length ∧
        encl'.disks.get? encl.num_disks = some e ∧
        c_string e.mnt = c_string mnt ∧ e.mnt.length = max_len + 1 ∧
        e.ro = readonly ∧
        e.fd = host.sys_open p (if readonly ≠ 0 then O_RDONLY else O_RDWR) ∧
        e.enc = (is_disk_encrypted host
          (host.sys_open p (if readonly ≠ 0 then O_RDONLY else O_RDWR))).1 ∧
        ∀ j, j ≠ encl.num_disks → encl'.disks.get? j = encl.disks.get? j) ∧
    ((readonly ≠ 0 → (if readonly ≠ 0 then O_RDONLY else O_RDWR) = O_RDONLY) ∧
     (readonly = 0 → (if readonly ≠ 0 then O_RDONLY else O_RDWR) = O_RDWR) ∧
     O_RDONLY ≠ O_RDWR) := by
  refine ⟨?_, ?_, ?_, ?_⟩
  · intro h
    simp [register_hd, h]
  · intro h hp
    have h' : ¬ c_strlen mnt > max_len := by omega
    rcases hp with rfl | ⟨p, rfl, hp0⟩
    · simp [register_hd, h']
    · simp [register_hd, h', hp0]
  · intro p h hpath hp0 hfd hfl hres hroom
    subst hpath
    have h' : ¬ c_strlen mnt > max_len := by omega
    obtain ⟨hm1, hm2⟩ := c_string_strncpy_terminated mnt max_len h
    refine ⟨⟨encl.disks.set encl.num_disks
          ⟨host.sys_open p (if readonly ≠ 0 then O_RDONLY else O_RDWR), readonly,
            strncpy_terminated mnt max_len,
            (is_disk_encrypted host
              (host.sys_open p (if readonly ≠ 0 then O_RDONLY else O_RDWR))).1⟩,
        encl.num_disks + 1⟩,
      ⟨host.sys_open p (if readonly ≠ 0 then O_RDONLY else O_RDWR), readonly,
        strncpy_terminated mnt max_len,
        (is_disk_encrypted host
          (host.sys_open p (if readonly ≠ 0 then O_RDONLY else O_RDWR))).1⟩,
      ?_, rfl, ?_, ?_, hm1, hm2, rfl, rfl, rfl, ?_⟩
    · simp only [register_hd, if_neg h', if_neg hp0, if_neg hfd, if_neg hfl, if_neg hres,
        if_pos hroom]
    · simp
    · simp [hroom]
    · intro j hj
      simp [List.getElem?_set, Ne.symm hj]
  · refine ⟨fun h => by simp [h], fun h => by simp [h], by decide⟩

theorem register_hd_effect_witness :
    ∃ encl', register_hd 255
        ⟨fun _ _ => 3, fun _ => 2, fun _ _ => 0, fun _ _ _ => (2, [0x53, 0xEF])⟩
        ⟨[⟨0, 0, [], 0⟩, ⟨0, 0, [], 0⟩], 0⟩ (some (c_str "a.img")) (c_str "/") 1
          = Outcome.ok encl' ∧
      encl'.num_disks = 0 + 1 := by
  obtain ⟨encl', e, h1, h2, _⟩ := (register_hd_effect 255
      ⟨fun _ _ => 3, fun _ => 2, fun _ _ => 0, fun _ _ _ => (2, [0x53, 0xEF])⟩
      ⟨[⟨0, 0, [], 0⟩, ⟨0, 0, [], 0⟩], 0⟩ (some (c_str "a.img")) (c_str "/") 1).2.2.1
    (c_str "a.img") (by decide) rfl (by decide) (by decide) (by decide) (by decide) (by decide)
  exact ⟨encl', h1, h2⟩

/-! ## Theorems: reported CPU counts and network registration -/

/-- C17, as written, fails: on a host with 8 configured CPUs of which 4 are online and
with 6 enclave threads, `set_sysconf_params` stores 6 in `nproc_conf`, which is not
`min(host_online, E) = 4`. -/
theorem nproc_conf_uses_configured_cpus :
    set_sysconf_params 8 4 6 = (6, 4) ∧ (set_sysconf_params 8 4 6).1 ≠ min 4 6 := by
  decide

/-- C17 (amended): for every host and every enclave-thread count `E` (below `2^63`),
`set_sysconf_params` stores `min(host_conf, E)` in `nproc_conf` and `min(host_online, E)`
in `nproc_online`, where `host_conf` is the host's number of configured CPUs
(`_SC_NPROCESSORS_CONF`) and `host_online` its number of online CPUs. -/
theorem set_sysconf_params_min (host_conf host_online : Int) (E : Nat) (hE : E < 2 ^ 63) :
    set_sysconf_params host_conf host_online E
      = (min host_conf (E : Int), min host_online (E : Int)) := by
  unfold set_sysconf_params MIN
  rw [to_int64_of_lt E hE]
  simp only
  congr 1
  · split <;> omega
  · split <;> omega

theorem set_sysconf_params_min_witness :
    set_sysconf_params 16 12 4 = (min 16 ((4 : Nat) : Int), min 12 ((4 : Nat) : Int)) :=
  set_sysconf_params_min 16 12 4 (by decide)

/-- C16, as written, fails: with `SGXLKL_MASK4` set to a string whose value is 99 and no
tap device given, `register_net` returns normally; the mask is never looked at. -/
theorem register_net_returns_without_tap :
    register_net ⟨false, 5, 0, 0, 0, fun _ => (1, 0), fun _ => (1, 0), fun _ => 99⟩ 64
        (c_str "10.0.1.1") (c_str "10.0.1.254") (c_str "lkl") ⟨[], 0, 0, 0, 0⟩
        none none (some (c_str "99")) none none
      = Outcome.ok ⟨c_str "lkl", 0, 0, 0, 0⟩ ∧
    ¬ ((1 : Int) ≤ 99 ∧ (99 : Int) ≤ 32) := by
  decide

/-- C16 (amended): for every call of `register_net` with a non-empty tap device string in
which the MASK4 string is set and its `atoi` value lies outside `[1,32]`, `register_net`
terminates the launcher with `exit(EXIT_FAILURE)` instead of returning; when MASK4 is
unset and such a call returns, the mask stored is the default 24. With no tap device
(`NULL` or empty string) and no interface registered before, `register_net` returns
having set only the host name, whatever MASK4 is. -/
theorem register_net_mask_check (host : NetHost) (hostname_size : Nat)
    (default_ip4 default_gw4 default_hostname : List Nat) (encl : net_config)
    (tapstr ip4str mask4str gw4str hostname : Option (List Nat)) :
    (∀ t m, tapstr = some t → c_strlen t ≠ 0 → mask4str = some m →
      (host.atoi m < 1 ∨ host.atoi m > 32) →
      register_net host hostname_size default_ip4 default_gw4 default_hostname encl
        tapstr ip4str mask4str gw4str hostname = Outcome.exit EXIT_FAILURE) ∧
    (∀ t cfg, tapstr = some t → c_strlen t ≠ 0 → mask4str = none →
      register_net host hostname_size default_ip4 default_gw4 default_hostname encl
        tapstr ip4str mask4str gw4str hostname = Outcome.ok cfg →
      cfg.net_mask4 = 24) ∧
    ((tapstr = none ∨ c_strlen (tapstr.getD []) = 0) → encl.net_fd = 0 →
      register_net host hostname_size default_ip4 default_gw4 default_hostname encl
        tapstr ip4str mask4str gw4str hostname
        = Outcome.ok { encl with hostname :=
            (c_string (match hostname with
              | some h => h
              | none => default_hostname)).take (hostname_size - 1) }) := by
  refine ⟨?_, ?_, ?_⟩
  · intro t m ht ht0 hm hbad
    subst ht hm
    unfold register_net
    simp only [Option.getD_some]
    have h1 : ¬ ((some t : Option (List Nat)) = none ∨ c_strlen t = 0) := by simp [ht0]
    simp only [if_neg h1, if_pos hbad]
    split_ifs <;> rfl
  · intro t cfg ht ht0 hm hok
    subst ht hm
    have key : register_net host hostname_size default_ip4 default_gw4 default_hostname encl
          (some t) ip4str none gw4str hostname = Outcome.exit EXIT_FAILURE ∨
        ∃ cfg', register_net host hostname_size default_ip4 default_gw4 default_hostname encl
          (some t) ip4str none gw4str hostname = Outcome.ok cfg' ∧ cfg'.net_mask4 = 24 := by
      generalize hR : register_net host hostname_size default_ip4 default_gw4 default_hostname
        encl (some t) ip4str none gw4str hostname = R
      unfold register_net at hR
      have h1 : ¬ ((some t : Option (List Nat)) = none ∨ c_strlen t = 0) := by simp [ht0]
      simp only [Option.getD_some, if_neg h1] at hR
      by_cases c1 : encl.net_fd ≠ 0
      · rw [if_pos c1] at hR; exact Or.inl hR.symm
      rw [if_neg c1] at hR
      by_cases c2 : host.open_tun = -1
      · rw [if_pos c2] at hR; exact Or.inl hR.symm
      rw [if_neg c2] at hR
      by_cases c3 : host.ioctl_tunsetiff = -1
      · rw [if_pos c3] at hR; exact Or.inl hR.symm
      rw [if_neg c3] at hR
      by_cases c4 : (if host.tap_offload = true then 12 else 0) ≠ 0 ∧ host.ioctl_tunsetvnethdrsz ≠ 0
      · rw [if_pos c4] at hR; exact Or.inl hR.symm
      rw [if_neg c4] at hR
      by_cases c5 : host.ioctl_tunsetoffload ≠ 0
      · rw [if_pos c5] at hR; exact Or.inl hR.symm
      rw [if_neg c5] at hR
      by_cases c6 : (host.inet_pton_ip4 (ip4str.getD default_ip4)).1 ≠ 1
      · rw [if_pos c6] at hR; exact Or.inl hR.symm
      rw [if_neg c6] at hR
      split_ifs at hR
      all_goals first
        | exact Or.inl hR.symm
        | exact Or.inr ⟨_, hR.symm, rfl⟩
    rcases key with h | ⟨cfg', h, h24⟩
    · rw [h] at hok
      cases hok
    · rw [h] at hok
      cases hok
      exact h24
  · intro htap hfd
    unfold register_net
    have h0 : ¬ (encl.net_fd ≠ 0) := by simp [hfd]
    simp only [if_neg h0, if_pos htap]

theorem register_net_mask_check_witness :
    register_net ⟨false, 5, 0, 0, 0, fun _ => (1, 7), fun _ => (1, 8), fun _ => 33⟩ 64
        (c_str "10.0.1.1") (c_str "10.0.1.254") (c_str "lkl") ⟨[], 0, 0, 0, 0⟩
        (some (c_str "tap0")) none (some (c_str "33")) none none
      = Outcome.exit EXIT_FAILURE ∧
    register_net ⟨false, 5, 0, 0, 0, fun _ => (1, 7), fun _ => (1, 8), fun _ => 33⟩ 64
        (c_str "10.0.1.1") (c_str "10.0.1.254") (c_str "lkl") ⟨[], 0, 0, 0, 0⟩
        (some (c_str "tap0")) none none none none = Outcome.ok ⟨c_str "lkl", 5, 7, 8, 24⟩ ∧
    (⟨c_str "lkl", 5, 7, 8, 24⟩ : net_config).net_mask4 = 24 :=
  ⟨(register_net_mask_check ⟨false, 5, 0, 0, 0, fun _ => (1, 7), fun _ => (1, 8), fun _ => 33⟩
      64 (c_str "10.0.1.1") (c_str "10.0.1.254") (c_str "lkl") ⟨[], 0, 0, 0, 0⟩
      (some (c_str "tap0")) none (some (c_str "33")) none none).1
      (c_str "tap0") (c_str "33") rfl (by decide) rfl (Or.inr (by decide)),
   by decide,
   (register_net_mask_check ⟨false, 5, 0, 0, 0, fun _ => (1, 7), fun _ => (1, 8), fun _ => 33⟩
      64 (c_str "10.0.1.1") (c_str "10.0.1.254") (c_str "lkl") ⟨[], 0, 0, 0, 0⟩
      (some (c_str "tap0")) none none none none).2.1
      (c_str "tap0") ⟨c_str "lkl", 5, 7, 8, 24⟩ rfl (by decide) rfl (by decide)⟩

/-! ## Theorems: start-up in `main` -/

/-- A call of `register_hd` ends in `exit(EXIT_FAILURE)`, or returns with the array
length kept and the counter advanced by at most one, or (only when the counter has
reached the end of the array) writes outside it. -/
theorem register_hd_ends (max_len : Nat) (host : DiskHost) (encl : disk_table)
    (path : Option (List Nat)) (mnt : List Nat) (readonly : Int) :
    register_hd max_len host encl path mnt readonly = Outcome.exit EXIT_FAILURE ∨
    (∃ e, register_hd max_len host encl path mnt readonly = Outcome.ok e ∧
      e.disks.length = encl.disks.length ∧ e.num_disks ≤ encl.num_disks + 1) ∨
    (register_hd max_len host encl path mnt readonly = Outcome.undefined ∧
      encl.disks.length ≤ encl.num_disks) := by
  generalize hR : register_hd max_len host encl path mnt readonly = R
  unfold register_hd at hR
  simp only at hR
  by_cases h1 : c_strlen mnt > max_len
  · rw [if_pos h1] at hR; exact Or.inl hR.symm
  rw [if_neg h1] at hR
  cases path with
  | none => exact Or.inr (Or.inl ⟨encl, hR.symm, rfl, by omega⟩)
  | some p =>
    simp only at hR
    by_cases h2 : c_strlen p = 0
    · rw [if_pos h2] at hR; exact Or.inr (Or.inl ⟨encl, hR.symm, rfl, by omega⟩)
    rw [if_neg h2] at hR
    split_ifs at hR
    all_goals first
      | exact Or.inl hR.symm
      | exact Or.inr (Or.inl ⟨_, hR.symm, by simp, by simp⟩)
      | exact Or.inr (Or.inr ⟨hR.symm, by omega⟩)

/-- With room in the array for every call, `register_hds` ends in `exit(EXIT_FAILURE)`
or returns. -/
theorem register_hd_calls_ends (max_len : Nat) (host : DiskHost) :
    ∀ (calls : List (Option (List Nat) × List Nat × Int)) (encl : disk_table),
      encl.num_disks + calls.length ≤ encl.disks.length →
      register_hd_calls max_len host calls encl = Outcome.exit EXIT_FAILURE ∨
      ∃ e, register_hd_calls max_len host calls encl = Outcome.ok e := by
  intro calls
  induction calls with
  | nil => intro encl _; exact Or.inr ⟨encl, rfl⟩
  | cons c rest ih =>
    intro encl hroom
    obtain ⟨path, mnt, ro⟩ := c
    simp only [List.length_cons] at hroom
    unfold register_hd_calls
    rcases register_hd_ends max_len host encl path mnt ro with h | ⟨e, h, hl, hn⟩ | ⟨h, hfull⟩
    · rw [h]; exact Or.inl rfl
    · rw [h]
      exact ih e (by omega)
    · omega

/-- A call of `register_net` ends in `exit(EXIT_FAILURE)` or returns. -/
theorem register_net_ends (host : NetHost) (hostname_size : Nat)
    (default_ip4 default_gw4 default_hostname : List Nat) (encl : net_config)
    (tapstr ip4str mask4str gw4str hostname : Option (List Nat)) :
    register_net host hostname_size default_ip4 default_gw4 default_hostname encl
      tapstr ip4str mask4str gw4str hostname = Outcome.exit EXIT_FAILURE ∨
    ∃ cfg, register_net host hostname_size default_ip4 default_gw4 default_hostname encl
      tapstr ip4str mask4str gw4str hostname = Outcome.ok cfg := by
  generalize hR : register_net host hostname_size default_ip4 default_gw4 default_hostname
    encl tapstr ip4str mask4str gw4str hostname = R
  unfold register_net at hR
  simp only at hR
  by_cases c1 : encl.net_fd ≠ 0
  · rw [if_pos c1] at hR; exact Or.inl hR.symm
  rw [if_neg c1] at hR
  by_cases c0 : tapstr = none ∨ c_strlen (tapstr.getD []) = 0
  · rw [if_pos c0] at hR; exact Or.inr ⟨_, hR.symm⟩
  rw [if_neg c0] at hR
  by_cases c2 : host.open_tun = -1
  · rw [if_pos c2] at hR; exact Or.inl hR.symm
  rw [if_neg c2] at hR
  by_cases c3 : host.ioctl_tunsetiff = -1
  · rw [if_pos c3] at hR; exact Or.inl hR.symm
  rw [if_neg c3] at hR
  by_cases c4 : (if host.tap_offload = true then 12 else 0) ≠ 0 ∧ host.ioctl_tunsetvnethdrsz ≠ 0
  · rw [if_pos c4] at hR; exact Or.inl hR.symm
  rw [if_neg c4] at hR
  by_cases c5 : host.ioctl_tunsetoffload ≠ 0
  · rw [if_pos c5] at hR; exact Or.inl hR.symm
  rw [if_neg c5] at hR
  by_cases c6 : (host.inet_pton_ip4 (ip4str.getD default_ip4)).1 ≠ 1
  · rw [if_pos c6] at hR; exact Or.inl hR.symm
  rw [if_neg c6] at hR
  split_ifs at hR
  all_goals first
    | exact Or.inl hR.symm
    | exact Or.inr ⟨_, hR.symm⟩

/-- The outcome of two steps in a row: that of the first when it does not return
normally, else that of the second. -/
theorem main_then_snd (a b : MainStep) :
    (a.2 = Outcome.ok () ∧ (main_then a b).2 = b.2) ∨
    (a.2 ≠ Outcome.ok () ∧ (main_then a b).2 = a.2) := by
  unfold main_then
  cases h : a.2 with
  | ok u => exact Or.inl ⟨rfl, rfl⟩
  | exit s => exact Or.inr ⟨by simp, by simp [h]⟩
  | ret v => exact Or.inr ⟨by simp, by simp [h]⟩
  | undefined => exact Or.inr ⟨by simp, by simp [h]⟩

/-- Two steps in a row, each of which returns normally, ends in `exit(EXIT_FAILURE)` or
makes `main` return `-1`, end in one of these three ways. -/
theorem main_then_ends (a b : MainStep)
    (ha : a.2 = Outcome.ok () ∨ a.2 = Outcome.exit EXIT_FAILURE ∨ a.2 = Outcome.ret (-1))
    (hb : b.2 = Outcome.ok () ∨ b.2 = Outcome.exit EXIT_FAILURE ∨ b.2 = Outcome.ret (-1)) :
    (main_then a b).2 = Outcome.ok () ∨ (main_then a b).2 = Outcome.exit EXIT_FAILURE ∨
    (main_then a b).2 = Outcome.ret (-1) := by
  rcases main_then_snd a b with ⟨_, h⟩ | ⟨_, h⟩
  · rw [h]; exact hb
  · rw [h]; exact ha

/-- The check of the launcher path returns normally or makes `main` return `-1`. -/
theorem main_path_ends (h : MainHost) :
    (main_path h).2 = Outcome.ok () ∨ (main_path h).2 = Outcome.ret (-1) := by
  unfold main_path
  split_ifs
  all_goals first
    | exact Or.inl rfl
    | exact Or.inr rfl

/-- The heap step returns normally or makes `main` return `-1`. -/
theorem main_heap_ends (non_pie : Bool) (text_start heapsize : Nat) (mmap_heap_ok : Bool) :
    (main_heap non_pie text_start heapsize mmap_heap_ok).2 = Outcome.ok () ∨
    (main_heap non_pie text_start heapsize mmap_heap_ok).2 = Outcome.ret (-1) := by
  unfold main_heap
  split_ifs
  all_goals first
    | exact Or.inl rfl
    | exact Or.inr rfl

/-- Where the sum `0x200000 + h` does not wrap, the guard of the heap step works as
intended: with `SGXLKL_NON_PIE` set and the region reaching past the launcher's text,
the step prints the limit `text_start - 0x200000` and makes `main` return `-1` without
mapping the heap. -/
theorem main_heap_guard (text_start heapsize : Nat) (mmap_heap_ok : Bool)
    (hfit : SIM_NON_PIE_ENCL_MMAP_OFFSET + heapsize < U64)
    (hlow : SIM_NON_PIE_ENCL_MMAP_OFFSET ≤ text_start)
    (hover : SIM_NON_PIE_ENCL_MMAP_OFFSET + heapsize > text_start) :
    main_heap true text_start heapsize mmap_heap_ok
      = ([MainEvent.diag_non_pie_limit (text_start - SIM_NON_PIE_ENCL_MMAP_OFFSET)],
         Outcome.ret (-1)) := by
  unfold main_heap
  have h1 : (SIM_NON_PIE_ENCL_MMAP_OFFSET + heapsize) % U64
      = SIM_NON_PIE_ENCL_MMAP_OFFSET + heapsize := Nat.mod_eq_of_lt hfit
  have h2 : (text_start + U64 - SIM_NON_PIE_ENCL_MMAP_OFFSET) % U64
      = text_start - SIM_NON_PIE_ENCL_MMAP_OFFSET := by
    have : text_start + U64 - SIM_NON_PIE_ENCL_MMAP_OFFSET
        = (text_start - SIM_NON_PIE_ENCL_MMAP_OFFSET) + U64 := by omega
    rw [this, Nat.add_mod_right]
    exact Nat.mod_eq_of_lt (by omega)
  rw [h1, h2, if_pos ⟨rfl, hover⟩]

/-- The allocation of the slot array returns normally or makes `main` return `-1`. -/
theorem main_slots_ends (h : MainHost) :
    (main_slots h).2 = Outcome.ok () ∨ (main_slots h).2 = Outcome.ret (-1) := by
  unfold main_slots
  split_ifs
  · exact Or.inr rfl
  · exact Or.inl rfl

/-- The registration of the disks returns normally or ends in `exit(EXIT_FAILURE)`. -/
theorem main_disks_ends (h : MainHost) :
    (main_disks h).2 = Outcome.ok () ∨ (main_disks h).2 = Outcome.exit EXIT_FAILURE := by
  unfold main_disks
  rcases register_hd_calls_ends h.max_len h.disk_host h.disk_calls
    ⟨List.replicate h.disk_calls.length ⟨0, 0, [], 0⟩, 0⟩ (by simp) with h1 | ⟨e, h1⟩
  · rw [h1]; exact Or.inr rfl
  · rw [h1]; exact Or.inl rfl

/-- The registration of the network returns normally or ends in `exit(EXIT_FAILURE)`. -/
theorem main_net_ends (h : MainHost) :
    (main_net h).2 = Outcome.ok () ∨ (main_net h).2 = Outcome.exit EXIT_FAILURE := by
  unfold main_net
  rcases register_net_ends h.net_host h.hostname_size DEFAULT_IPV4_ADDR DEFAULT_IPV4_GW
    DEFAULT_HOSTNAME ⟨[], 0, 0, 0, 0⟩ h.tapstr h.ip4str h.mask4str h.gw4str h.hostname
    with h1 | ⟨cfg, h1⟩
  · rw [h1]; exact Or.inr rfl
  · rw [h1]; exact Or.inl rfl

/-- The registration of the shared memory returns normally or ends in
`exit(EXIT_FAILURE)`. -/
theorem main_shm_ends (h : MainHost) :
    (main_shm h).2 = Outcome.ok () ∨ (main_shm h).2 = Outcome.exit EXIT_FAILURE := by
  unfold main_shm
  split_ifs
  · exact Or.inr rfl
  · exact Or.inl rfl

/-- The start of the threads leaves the pools running, makes `main` return `-1`, or ends
in `exit(EXIT_FAILURE)` (the refusal of the real-time priority). -/
theorem main_threads_ends (h : MainHost) :
    (main_threads h).2 = Outcome.ok () ∨ (main_threads h).2 = Outcome.ret (-1) ∨
    (main_threads h).2 = Outcome.exit EXIT_FAILURE := by
  unfold main_threads
  split_ifs
  all_goals first
    | exact Or.inl rfl
    | exact Or.inr (Or.inl rfl)
    | exact Or.inr (Or.inr rfl)

/-- The handling of the arguments returns normally, ends in `exit(EXIT_SUCCESS)` after
printing the version, or ends in `exit(EXIT_FAILURE)` after printing the usage. -/
theorem main_args_ends (h : MainHost) :
    (main_args h).2 = Outcome.ok () ∨
    ((main_args h).2 = Outcome.exit EXIT_SUCCESS ∧ h.arg1_version = true) ∨
    (main_args h).2 = Outcome.exit EXIT_FAILURE := by
  unfold main_args
  split_ifs with h1 h2
  · exact Or.inr (Or.inl ⟨rfl, h1.2⟩)
  · exact Or.inr (Or.inr rfl)
  · exact Or.inl rfl

/-- Every way `main` can end after the handling of its arguments, before or while it
starts its threads. -/
theorem launcher_steps_end (h : MainHost) :
    (main_then (main_path h)
      (main_then (main_heap h.non_pie h.text_start h.heapsize h.mmap_heap_ok)
        (main_then (main_slots h)
          (main_then (main_disks h)
            (main_then (main_net h)
              (main_then (main_shm h) (main_threads h))))))).2 = Outcome.ok () ∨
    (main_then (main_path h)
      (main_then (main_heap h.non_pie h.text_start h.heapsize h.mmap_heap_ok)
        (main_then (main_slots h)
          (main_then (main_disks h)
            (main_then (main_net h)
              (main_then (main_shm h) (main_threads h))))))).2 = Outcome.exit EXIT_FAILURE ∨
    (main_then (main_path h)
      (main_then (main_heap h.non_pie h.text_start h.heapsize h.mmap_heap_ok)
        (main_then (main_slots h)
          (main_then (main_disks h)
            (main_then (main_net h)
              (main_then (main_shm h) (main_threads h))))))).2 = Outcome.ret (-1) := by
  apply main_then_ends
  · rcases main_path_ends h with h1 | h1
    · exact Or.inl h1
    · exact Or.inr (Or.inr h1)
  apply main_then_ends
  · rcases main_heap_ends h.non_pie h.text_start h.heapsize h.mmap_heap_ok with h1 | h1
    · exact Or.inl h1
    · exact Or.inr (Or.inr h1)
  apply main_then_ends
  · rcases main_slots_ends h with h1 | h1
    · exact Or.inl h1
    · exact Or.inr (Or.inr h1)
  apply main_then_ends
  · rcases main_disks_ends h with h1 | h1
    · exact Or.inl h1
    · exact Or.inr (Or.inl h1)
  apply main_then_ends
  · rcases main_net_ends h with h1 | h1
    · exact Or.inl h1
    · exact Or.inr (Or.inl h1)
  apply main_then_ends
  · rcases main_shm_ends h with h1 | h1
    · exact Or.inl h1
    · exact Or.inr (Or.inl h1)
  · rcases main_threads_ends h with h1 | h1 | h1
    · exact Or.inl h1
    · exact Or.inr (Or.inr h1)
    · exact Or.inr (Or.inl h1)

/-- Every way `main` can end before or while it starts its threads. -/
theorem launcher_main_ends (h : MainHost) :
    (launcher_main h).2 = Outcome.ok () ∨
    ((launcher_main h).2 = Outcome.exit EXIT_SUCCESS ∧ h.arg1_version = true) ∨
    (launcher_main h).2 = Outcome.exit EXIT_FAILURE ∨
    (launcher_main h).2 = Outcome.ret (-1) := by
  unfold launcher_main
  rcases main_then_snd (main_args h)
    (main_then (main_path h)
      (main_then (main_heap h.non_pie h.text_start h.heapsize h.mmap_heap_ok)
        (main_then (main_slots h)
          (main_then (main_disks h)
            (main_then (main_net h)
              (main_then (main_shm h) (main_threads h))))))) with ⟨_, h1⟩ | ⟨hne, h1⟩
  · rw [h1]
    rcases launcher_steps_end h with h2 | h2 | h2
    · exact Or.inl h2
    · exact Or.inr (Or.inr (Or.inl h2))
    · exact Or.inr (Or.inr (Or.inr h2))
  · rw [h1]
    rcases main_args_ends h with h2 | h2 | h2
    · exact absurd h2 hne
    · exact Or.inr (Or.inl h2)
    · exact Or.inr (Or.inr (Or.inl h2))

/-- C15 (code defect): the guard of the heap step misses a heap size whose sum with
`0x200000` wraps around `2^64`. With `SGXLKL_NON_PIE=1`, the launcher's text at
`0x400000` and `SGXLKL_HEAP = 2^64 - 0x200000` (below `ULONG_MAX`, so the reader
accepts it), the region reaches past the text as natural numbers, yet the sum is 0 as
a 64-bit address: no limit is printed, `mmap` is called with `MAP_FIXED`, and `main`
returns `-1` only because that `mmap` fails. A heap size of `0x300000`, where nothing
wraps, is reported with the limit `0x200000` before the heap is mapped. -/
theorem non_pie_guard_wraps :
    2 ^ 64 - 0x200000 < 2 ^ 64 - 1 ∧
    SIM_NON_PIE_ENCL_MMAP_OFFSET + (2 ^ 64 - 0x200000) > 0x400000 ∧
    (SIM_NON_PIE_ENCL_MMAP_OFFSET + (2 ^ 64 - 0x200000)) % U64 = 0 ∧
    main_heap true 0x400000 (2 ^ 64 - 0x200000) false
      = ([MainEvent.mmap_heap (2 ^ 64 - 0x200000) true], Outcome.ret (-1)) ∧
    launcher_main { sample_main_host with
        non_pie := true, heapsize := 2 ^ 64 - 0x200000, mmap_heap_ok := false }
      = ([MainEvent.mmap_heap (2 ^ 64 - 0x200000) true], Outcome.ret (-1)) ∧
    launcher_main { sample_main_host with non_pie := true, heapsize := 0x300000 }
      = ([MainEvent.diag_non_pie_limit 0x200000], Outcome.ret (-1)) := by
  decide

/-- C18, as written, fails: on the heap overlap under `SGXLKL_NON_PIE` (text at
`0x400000`, heap of `0x300000` bytes) `main` returns `-1`, so the process ends with
exit code 255, not 1; the same holds when the `mmap` of the heap fails. -/
theorem main_failure_exits_255 :
    (launcher_main { sample_main_host with non_pie := true, heapsize := 0x300000 }).2
      = Outcome.ret (-1) ∧
    exit_code (launcher_main { sample_main_host with
      non_pie := true, heapsize := 0x300000 }).2 = some 255 ∧
    exit_code (launcher_main { sample_main_host with mmap_heap_ok := false }).2 ≠ some 1 := by
  decide

/-- C18 (amended): every launcher-side failure detected by `main` or by the
registration helpers it calls ends the process with a non-zero exit code. A failure
detected by `main` itself (launcher path, heap overlap or failed heap mapping, slot
array, thread table, print locks, load of the library) makes `main` return `-1`, exit
code 255; a failure detected by `register_hds`, `register_net` or `register_shm`, the
usage error and the refusal of the real-time priority end in `exit(EXIT_FAILURE)`, exit
code 1. Exit code 0 before the threads run is only the answer to `--version`. -/
theorem launcher_failure_exit_codes (h : MainHost) :
    (((main_path h).2 = Outcome.ok () ∨ (main_path h).2 = Outcome.ret (-1)) ∧
     ((main_heap h.non_pie h.text_start h.heapsize h.mmap_heap_ok).2 = Outcome.ok () ∨
      (main_heap h.non_pie h.text_start h.heapsize h.mmap_heap_ok).2 = Outcome.ret (-1)) ∧
     ((main_slots h).2 = Outcome.ok () ∨ (main_slots h).2 = Outcome.ret (-1))) ∧
    (((main_disks h).2 = Outcome.ok () ∨ (main_disks h).2 = Outcome.exit EXIT_FAILURE) ∧
     ((main_net h).2 = Outcome.ok () ∨ (main_net h).2 = Outcome.exit EXIT_FAILURE) ∧
     ((main_shm h).2 = Outcome.ok () ∨ (main_shm h).2 = Outcome.exit EXIT_FAILURE)) ∧
    ((launcher_main h).2 = Outcome.ok () ∨
     ((launcher_main h).2 = Outcome.exit EXIT_SUCCESS ∧ h.arg1_version = true) ∨
     ((launcher_main h).2 = Outcome.exit EXIT_FAILURE ∧
       exit_code (launcher_main h).2 = some 1) ∨
     ((launcher_main h).2 = Outcome.ret (-1) ∧
       exit_code (launcher_main h).2 = some 255)) := by
  refine ⟨⟨main_path_ends h, main_heap_ends _ _ _ _, main_slots_ends h⟩,
    ⟨main_disks_ends h, main_net_ends h, main_shm_ends h⟩, ?_⟩
  rcases launcher_main_ends h with h1 | h1 | h1 | h1
  · exact Or.inl h1
  · exact Or.inr (Or.inl h1)
  · exact Or.inr (Or.inr (Or.inl ⟨h1, by rw [h1]; rfl⟩))
  · exact Or.inr (Or.inr (Or.inr ⟨h1, by rw [h1]; rfl⟩))

end SgxLkl
